import Mathlib

/-!
Verification development for the ccxt market-maker bot.

The definitions below are a shallow embedding, translated from the Python
source of the repository:

* `src/src/bot/order_manager.py` — order lifecycle tracking, settlement and
  cancellation (`OrderManager`);
* `src/src/bot/main.py` — order-book outlier filtering, the grid mid-price
  sanity check, and duplicate-suppressing order placement
  (`MarketMakerREST`);
* `src/src/utils/retry_handler.py` — retry with exponential backoff
  (`RetryHandler`).

Modelling conventions:

* Python `dict`s keyed by order id are modelled as association lists
  (`Dict α := List (String × α)`); `dinsert` replaces in place like a Python
  key assignment, `derase` removes the key like `pop`/`del`.  All states
  reachable by the code have no duplicate keys; where an operation's
  behaviour on (unreachable) duplicate-key states would differ from Python,
  theorems carry a `dnodup` hypothesis.
* Times and prices are exact rationals (`ℚ`): the source uses `Decimal`
  (exact decimal arithmetic, a subring of ℚ) for prices and float unix
  timestamps only for differences and comparisons.
* Remote venue calls are oracles passed in as data: an open-orders poll is
  the returned list of orders (`none` when the call raised after retries),
  the per-order final re-fetch is a function from order id to an optional
  result, etc.
* Database writes (`record_order`, `update_order_status`, `record_trade`)
  are fire-and-forget audit calls in the source; they are modelled as an
  emitted event list (`DbEvent`).
* Python string/number coercions (`str(...)`, `Decimal(...)`, `float(...)`)
  are modelled by carrying the rendered strings and by `parseDecimal`, a
  parser for plain signed decimal literals.
-/

/-- Association-list model of a Python `dict` keyed by strings. -/
abbrev Dict (α : Type) := List (String × α)

/-- Lookup of a key, first match wins (Python dicts have unique keys). -/
def dlookup {α : Type} (d : Dict α) (k : String) : Option α :=
  match d with
  | [] => none
  | (k1, v) :: rest => if k1 = k then some v else dlookup rest k

/-- Key membership test, mirroring Python `k in d`. -/
def dcontains {α : Type} (d : Dict α) (k : String) : Bool :=
  (dlookup d k).isSome

/-- Key assignment `d[k] = v`: replaces the value in place when the key is
present, appends at the end otherwise (Python dicts keep insertion order). -/
def dinsert {α : Type} (d : Dict α) (k : String) (v : α) : Dict α :=
  match d with
  | [] => [(k, v)]
  | (k1, v1) :: rest =>
    if k1 = k then (k, v) :: rest else (k1, v1) :: dinsert rest k v

/-- Key removal (`d.pop(k)` / `del d[k]`); removes every entry with the key,
which on duplicate-free states coincides with Python. -/
def derase {α : Type} (d : Dict α) (k : String) : Dict α :=
  match d with
  | [] => []
  | (k1, v1) :: rest =>
    if k1 = k then derase rest k else (k1, v1) :: derase rest k

/-- The key list, in insertion order (`d.keys()`). -/
def dkeys {α : Type} (d : Dict α) : List String :=
  match d with
  | [] => []
  | (k1, _) :: rest => k1 :: dkeys rest

/-- The value list, in insertion order (`d.values()`). -/
def dvalues {α : Type} (d : Dict α) : List α :=
  match d with
  | [] => []
  | (_, v1) :: rest => v1 :: dvalues rest

/-- Well-formedness of the dict model: no duplicate keys.  Every state the
program builds from the empty dicts satisfies this. -/
def dnodup {α : Type} (d : Dict α) : Prop :=
  (dkeys d).Nodup

instance {α : Type} (d : Dict α) : Decidable (dnodup d) := by
  unfold dnodup; infer_instance

/-- Digit run folded into a natural number, most significant digit first. -/
def digitsToNat (l : List Char) : ℕ :=
  l.foldl (fun n c => 10 * n + (c.toNat - 48)) 0

/-- Parser for an unsigned plain decimal literal: digits, an optional point,
and fractional digits; at least one digit overall (`"1"`, `"1."`, `".5"`). -/
def parseUnsigned (s : List Char) : Option ℚ :=
  let intPart := s.takeWhile Char.isDigit
  let rest := s.dropWhile Char.isDigit
  match rest with
  | [] => if intPart.isEmpty then none else some (digitsToNat intPart)
  | c :: frac =>
    if c = '.' ∧ frac.all Char.isDigit ∧ ¬ (intPart.isEmpty ∧ frac.isEmpty) then
      some ((digitsToNat intPart : ℚ) + (digitsToNat frac : ℚ) / (10 ^ frac.length))
    else none

/-- Model of Python `Decimal(s)` / `float(s)` on plain decimal notation:
an optional sign followed by an unsigned decimal literal.  Returns `none`
when the source constructor would raise (for example on `""` or `"None"`). -/
def parseDecimal (s : String) : Option ℚ :=
  match s.data with
  | '-' :: rest => (parseUnsigned rest).map (fun q => -q)
  | '+' :: rest => parseUnsigned rest
  | l => parseUnsigned l

/-- Model of Python `str.lower()` on ASCII data (the core `String.toLower`
is position-based and does not reduce in the kernel). -/
def str_lower (s : String) : String := String.mk (s.data.map Char.toLower)

/-- Model of Python `str.upper()` on ASCII data. -/
def str_upper (s : String) : String := String.mk (s.data.map Char.toUpper)

/-- Model of `OrderManager._safe_value_to_str`: `None` (here `none`) and the
string `"None"` (any casing) become the default, other strings pass through. -/
def safe_value_to_str (value : Option String) (default : String) : String :=
  match value with
  | none => default
  | some s => if str_lower s = "none" then default else s

/-- Model of `OrderManager._safe_str_to_float`: `None`, `"None"`, `""` and
unparsable strings give the default, otherwise the parsed number.  Numeric
inputs are carried as their rendered strings. -/
def safe_str_to_float (value : Option String) (default : ℚ) : ℚ :=
  match value with
  | none => default
  | some s =>
    if str_lower s = "none" ∨ s = "" then default
    else
      match parseDecimal s with
      | some q => q
      | none => default

/-- Outcome of a single attempted remote call, as classified by
`RetryHandler.retry_with_backoff`: a returned value, an exception from the
transient classes (`RequestTimeout`, `NetworkError`, `ConnectionError`,
`TimeoutError`), or any other exception class.  Error payloads are opaque
numeric identifiers. -/
inductive AttemptOutcome (α : Type) where
  | ok (v : α)
  | transient (e : ℕ)
  | fatal (e : ℕ)
deriving DecidableEq

/-- Result of the whole retry loop: a returned value or a raised exception,
remembering which class the exception had. -/
inductive CallResult (α : Type) where
  | success (v : α)
  | raisedTransient (e : ℕ)
  | raisedFatal (e : ℕ)
deriving DecidableEq

/-- Transience test on an attempt outcome. -/
def isTransient {α : Type} : AttemptOutcome α → Bool
  | .transient _ => true
  | _ => false

/-- Loop body of `RetryHandler.retry_with_backoff`, translated from
`src/src/utils/retry_handler.py` lines 34-53: `a` is the current value of
`attempt` and `fuel` is `max_retries - attempt` (so `fuel = 0` means
`attempt == max_retries`, where a transient error is re-raised instead of
retried).  The second component collects the backoff delays slept before
each retry, each `min(base_delay * 2 ** attempt, max_delay)`. -/
def retryGo {α : Type} (base_delay max_delay : ℚ) (attempts : ℕ → AttemptOutcome α) :
    ℕ → ℕ → CallResult α × List ℚ
  | a, 0 =>
    match attempts a with
    | .ok v => (.success v, [])
    | .transient e => (.raisedTransient e, [])
    | .fatal e => (.raisedFatal e, [])
  | a, fuel + 1 =>
    match attempts a with
    | .ok v => (.success v, [])
    | .transient _ =>
      let delay := min (base_delay * 2 ^ a) max_delay
      let r := retryGo base_delay max_delay attempts (a + 1) fuel
      (r.1, delay :: r.2)
    | .fatal e => (.raisedFatal e, [])

/-- Model of `RetryHandler.retry_with_backoff`: run the attempt loop from
`attempt = 0` with `max_retries` retries remaining beyond the first try. -/
def retry_with_backoff {α : Type} (max_retries : ℕ) (base_delay max_delay : ℚ)
    (attempts : ℕ → AttemptOutcome α) : CallResult α × List ℚ :=
  retryGo base_delay max_delay attempts 0 max_retries

/-- Locally tracked order, translated from `OrderData` in
`src/src/models/types.py`: every numeric field is carried as the string the
source stores (`price`, `amount`, `filled`), `status` is the upper-cased
venue status, `info` stands for the opaque raw venue payload, and
`created_at` is the tracking timestamp. -/
structure OrderData where
  id : String
  symbol : String
  price : String
  side : String
  amount : String
  filled : String
  status : String
  info : String
  created_at : ℚ
deriving DecidableEq

/-- An order that disappeared from open-orders polling, from
`OrderDataWithDisappeared`: the tracked order data plus the
`disappeared_at` timestamp (the source copies the fields flat; the pairing
here is the same data). -/
structure OrderDataWithDisappeared where
  order : OrderData
  disappeared_at : ℚ
deriving DecidableEq

/-- One order of a venue `fetch_open_orders` response.  Fields the code
reads with `.get` are `Option` (`none` = key absent or `None`); values the
code passes through `str(...)` are carried as their rendered strings. -/
structure VenueOrder where
  id : String
  symbol : String
  price : Option String
  amount : Option String
  filled : Option String
  side : String
  status : Option String
  info : String
deriving DecidableEq

/-- Fire-and-forget database writes made by the tracker, modelled as
emitted events: `DatabaseManager.update_order_status`,
`DatabaseManager.record_trade` (keyed by the originating order id, with
pair, side, price and filled quantity), and
`DatabaseManager.record_order`. -/
inductive DbEvent where
  | statusUpdate (orderId : String) (status : String)
  | recordTrade (orderId : String) (pair : String) (side : String) (price : ℚ) (quantity : ℚ)
  | recordOrder (orderId : String) (pair : String) (side : String) (price : ℚ) (quantity : ℚ)
deriving DecidableEq

/-- In-memory state of `OrderManager`: the open-order map `my_orders` and
the disappeared-order map `recently_closed_orders`. -/
structure TrackerState where
  my_orders : Dict OrderData
  recently_closed_orders : Dict OrderDataWithDisappeared
deriving DecidableEq

/-- Loop body of `OrderManager.fetch_open_orders` (order_manager.py lines
80-117) for one order of the response: coerce the polled fields, keep the
existing `created_at` when the id is already tracked (otherwise stamp the
current time), overwrite the tracking entry, and drop the id from
`recently_closed_orders` if it reappeared. -/
def process_order (t : ℚ) (st : TrackerState) (o : VenueOrder) : TrackerState :=
  let oid := o.id
  let price := safe_value_to_str o.price "0"
  let amount := safe_value_to_str o.amount "0"
  let filled := safe_value_to_str o.filled "0"
  let created_at :=
    match dlookup st.my_orders oid with
    | some existing => existing.created_at
    | none => t
  let od : OrderData :=
    { id := oid, symbol := o.symbol, price := price, side := str_lower o.side,
      amount := amount, filled := filled,
      status := str_upper (o.status.getD "open"), info := o.info,
      created_at := created_at }
  { my_orders := dinsert st.my_orders oid od,
    recently_closed_orders :=
      if dcontains st.recently_closed_orders oid then
        derase st.recently_closed_orders oid
      else st.recently_closed_orders }

/-- Loop body of `OrderManager._handle_disappeared_orders` (lines 138-155)
for one absent id: pop it from `my_orders` and, when not already present,
store it in `recently_closed_orders` with `disappeared_at = now`. -/
def disappear_one (t : ℚ) (s : TrackerState) (old_id : String) : TrackerState :=
  match dlookup s.my_orders old_id with
  | some old_order =>
    { my_orders := derase s.my_orders old_id,
      recently_closed_orders :=
        if dcontains s.recently_closed_orders old_id then
          s.recently_closed_orders
        else
          dinsert s.recently_closed_orders old_id
            { order := old_order, disappeared_at := t } }
  | none => { s with my_orders := derase s.my_orders old_id }

/-- Model of `OrderManager._handle_disappeared_orders` (lines 133-155):
every tracked id absent from the current response is popped from
`my_orders` and, when not already there, stored in
`recently_closed_orders` stamped with `disappeared_at = now`
(`disappear_one` is the loop body for one such id). -/
def handle_disappeared_orders (t : ℚ) (current_ids : List String)
    (st : TrackerState) : TrackerState :=
  let old_ids := (dkeys st.my_orders).filter (fun k => ¬ current_ids.contains k)
  old_ids.foldl (disappear_one t) st

/-- The definitive filled quantity used by
`OrderManager._finalize_closed_order` (lines 183-197): `fetched` is the
venue `fetch_order` re-fetch, `none` when the call raised (fall back to the
last known filled amount of the tracked order), otherwise the rendered
`filled` field of the returned order. -/
def definitive_filled (order_data : OrderDataWithDisappeared)
    (fetched : Option (Option String)) : ℚ :=
  match fetched with
  | some filledField => safe_str_to_float filledField 0
  | none => safe_str_to_float (some order_data.order.filled) 0

/-- Model of `OrderManager._finalize_closed_order` (lines 178-221): emit
the `CLOSED` status write always and, when the definitive filled quantity
is positive, exactly one trade record for the order. -/
def finalize_closed_order (order_id : String) (order_data : OrderDataWithDisappeared)
    (fetched : Option (Option String)) : List DbEvent :=
  let final_filled : ℚ := definitive_filled order_data fetched
  DbEvent.statusUpdate order_id "CLOSED" ::
    (if 0 < final_filled then
      [DbEvent.recordTrade order_id order_data.order.symbol order_data.order.side
        (safe_str_to_float (some order_data.order.price) 0) final_filled]
    else [])

/-- Finalization of one settled id inside `_process_settled_orders` (lines
174-176): pop the entry from `recently_closed_orders` and append the events
of `_finalize_closed_order`. -/
def settle_one (fetch_final : String → Option (Option String))
    (acc : TrackerState × List DbEvent) (oid : String) :
    TrackerState × List DbEvent :=
  match dlookup acc.1.recently_closed_orders oid with
  | some order_data =>
    ({ acc.1 with recently_closed_orders := derase acc.1.recently_closed_orders oid },
      acc.2 ++ finalize_closed_order oid order_data (fetch_final oid))
  | none => acc

/-- Model of `OrderManager._process_settled_orders` (lines 160-176): collect
every recently-closed id whose time since disappearance has reached the
settlement timeout, then pop and finalize each (`settle_one`), accumulating
the database events. -/
def process_settled_orders (t settlement_timeout : ℚ)
    (fetch_final : String → Option (Option String))
    (st : TrackerState) : TrackerState × List DbEvent :=
  let orders_to_finalize :=
    dkeys (st.recently_closed_orders.filter
      (fun kv => settlement_timeout ≤ t - kv.2.disappeared_at))
  orders_to_finalize.foldl (settle_one fetch_final) (st, [])

/-- Model of one `OrderManager.fetch_open_orders` call (lines 66-131).
`response` is the venue open-orders reply, `none` when the call raised
after retries — the whole update is then skipped and local state kept
(the source catches the exception and only logs).  Otherwise the response
orders are folded in, disappeared ids handled, and settled orders
finalized. -/
def fetch_open_orders (t settlement_timeout : ℚ)
    (response : Option (List VenueOrder))
    (fetch_final : String → Option (Option String))
    (st : TrackerState) : TrackerState × List DbEvent :=
  match response with
  | none => (st, [])
  | some orders =>
    let st1 := orders.foldl (process_order t) st
    let current_ids := orders.map (fun o => o.id)
    let st2 := handle_disappeared_orders t current_ids st1
    process_settled_orders t settlement_timeout fetch_final st2

/-- Model of `OrderManager.cancel_order` (lines 223-236): `venue_ok` is
whether the venue cancel call (through the retry handler) returned; on
success the id is popped from `my_orders` (and only from `my_orders`) and
the persistent status is set to `CANCELLED`; on failure the exception is
caught, nothing is changed and nothing is written. -/
def cancel_order (order_id : String) (venue_ok : Bool)
    (st : TrackerState) : TrackerState × List DbEvent :=
  if venue_ok then
    ({ st with my_orders :=
        if dcontains st.my_orders order_id then derase st.my_orders order_id
        else st.my_orders },
      [DbEvent.statusUpdate order_id "CANCELLED"])
  else (st, [])

/-- One reconciliation poll: its wall-clock time, the venue open-orders
response (`none` = the fetch raised), and the finalization re-fetch oracle
for that poll. -/
structure Poll where
  t : ℚ
  response : Option (List VenueOrder)
  fetch_final : String → Option (Option String)

/-- A sequence of reconciliation polls run through
`OrderManager.fetch_open_orders`, with all database events concatenated in
order. -/
def run_polls (settlement_timeout : ℚ) (st : TrackerState) :
    List Poll → TrackerState × List DbEvent
  | [] => (st, [])
  | p :: rest =>
    let r1 := fetch_open_orders p.t settlement_timeout p.response p.fetch_final st
    let r2 := run_polls settlement_timeout r1.1 rest
    (r2.1, r1.2 ++ r2.2)

/-- The last response entry carrying a given order id (later entries of the
response overwrite earlier ones in the tracking loop). -/
def last_occurrence (orders : List VenueOrder) (k : String) : Option VenueOrder :=
  match orders with
  | [] => none
  | o :: rest =>
    match last_occurrence rest k with
    | some o2 => some o2
    | none => if o.id = k then some o else none

/-- The `created_at` the tracking loop keeps for an id: the existing
timestamp when already tracked, the poll time otherwise. -/
def created_at_for (t : ℚ) (st : TrackerState) (k : String) : ℚ :=
  match dlookup st.my_orders k with
  | some existing => existing.created_at
  | none => t

/-- The tracking entry built from one response order and a creation
timestamp (the body of the `OrderData(...)` constructor call in
`fetch_open_orders`). -/
def mk_polled_order (t_created : ℚ) (o : VenueOrder) : OrderData :=
  { id := o.id, symbol := o.symbol, price := safe_value_to_str o.price "0",
    side := str_lower o.side, amount := safe_value_to_str o.amount "0",
    filled := safe_value_to_str o.filled "0",
    status := str_upper (o.status.getD "open"), info := o.info,
    created_at := t_created }

/-- The order id a database event is about. -/
def event_order_id : DbEvent → String
  | .statusUpdate oid _ => oid
  | .recordTrade oid _ _ _ _ => oid
  | .recordOrder oid _ _ _ _ => oid

/-- The events of a trace that concern a given order id. -/
def events_for (oid : String) (evs : List DbEvent) : List DbEvent :=
  evs.filter (fun e => event_order_id e = oid)

/-- The database events produced by finalizing, in order, the listed ids
against a fixed disappeared-order map. -/
def settle_events (f : String → Option (Option String))
    (rc : Dict OrderDataWithDisappeared) : List String → List DbEvent
  | [] => []
  | k :: rest =>
    (match dlookup rc k with
     | some od => finalize_closed_order k od (f k)
     | none => []) ++ settle_events f rc rest

/-- Concrete tracked order used by witnesses. -/
def sample_order : OrderData :=
  { id := "A", symbol := "ETH/USDT", price := "1", side := "buy",
    amount := "2", filled := "1", status := "OPEN", info := "",
    created_at := 0 }

/-- Concrete disappeared order used by witnesses, gone since time 0. -/
def sample_disappeared : OrderDataWithDisappeared :=
  { order := sample_order, disappeared_at := 0 }

/-- Sample venue order used by witnesses. -/
def sample_venue_order : VenueOrder :=
  { id := "B", symbol := "ETH/USDT", price := some "3", amount := some "2",
    filled := some "0", side := "buy", status := some "open", info := "" }

/-- Sample response and state used by witnesses. -/
def sample_response : List VenueOrder := [sample_venue_order]

def sample_state : TrackerState :=
  { my_orders := [("A", sample_order)], recently_closed_orders := [] }

/-- The CLOSED status writes recorded for an order id. -/
def closed_updates_for (oid : String) (evs : List DbEvent) : List DbEvent :=
  evs.filter (fun e => e = DbEvent.statusUpdate oid "CLOSED")

/-- The trade records recorded for an order id. -/
def trades_for (oid : String) (evs : List DbEvent) : List DbEvent :=
  evs.filter (fun e =>
    match e with
    | DbEvent.recordTrade k _ _ _ _ => k = oid
    | _ => false)

/-- The open-orders ids a poll reports (empty when the fetch raised). -/
def poll_response_ids (p : Poll) : List String :=
  match p.response with
  | some orders => orders.map VenueOrder.id
  | none => []

/-- Venue order used by the C1 counterexample run. -/
def resurrect_order : VenueOrder :=
  { id := "A", symbol := "ETH/USDT", price := some "1", amount := some "2",
    filled := some "1", side := "buy", status := some "open", info := "" }

/-- Finalization re-fetch oracle of the C1 counterexample: every re-fetch
reports a filled quantity of 1. -/
def resurrect_fetch : String → Option (Option String) := fun _ => some (some "1")

/-- Poll sequence in which order id `"A"` is finalized at time 61, then
reappears in the time-62 response and is finalized again at time 123. -/
def resurrect_polls : List Poll :=
  [ { t := 0, response := some [resurrect_order], fetch_final := resurrect_fetch },
    { t := 1, response := some [], fetch_final := resurrect_fetch },
    { t := 61, response := some [], fetch_final := resurrect_fetch },
    { t := 62, response := some [resurrect_order], fetch_final := resurrect_fetch },
    { t := 63, response := some [], fetch_final := resurrect_fetch },
    { t := 123, response := some [], fetch_final := resurrect_fetch } ]

/-- Mid-price sanity check inside `MarketMakerREST.calculate_order_grid`
(main.py lines 606-616): when a last traded price is stored and positive, a
warning is logged for any move of more than 50 percent, but the stored
price replaces the freshly resolved mid-price only when the mid-price
exceeds twice the stored price. -/
def sanity_check_mid_price (last_price : Option ℚ) (mid_price : ℚ) : ℚ :=
  match last_price with
  | some lp =>
    if lp ≠ 0 ∧ 0 < lp then
      if 1/2 < |mid_price - lp| / lp then
        if lp * 2 < mid_price then lp else mid_price
      else mid_price
    else mid_price
  | none => mid_price

/-- The system's own resting bid and ask price levels, parsed from
`my_orders` as in `MarketMakerREST.fetch_and_update_orderbook` (main.py
lines 190-201): unparsable prices are skipped, `'buy'` orders contribute
bid prices and all others ask prices. -/
def my_order_prices (orders : Dict OrderData) : List ℚ × List ℚ :=
  (dvalues orders).foldl
    (fun acc o =>
      match parseDecimal o.price with
      | some p => if o.side = "buy" then (p :: acc.1, acc.2) else (acc.1, p :: acc.2)
      | none => acc)
    ([], [])

/-- One side of the outlier filter (main.py lines 203-230): skip levels at
the system's own order prices, keep levels inside
`[min_allowed, max_allowed]`.  The source stores the survivors in a dict
keyed by price (duplicate price levels collapse); which price levels are
retained is unaffected. -/
def filter_levels (levels : List (ℚ × ℚ)) (own : List ℚ) (lo hi : ℚ) :
    List (ℚ × ℚ) :=
  levels.filter (fun l => ¬ l.1 ∈ own ∧ lo ≤ l.1 ∧ l.1 ≤ hi)

/-- Model of the outlier-filtering step of
`MarketMakerREST.fetch_and_update_orderbook` (main.py lines 183-237): when
a reference price is available, nonzero and positive and
`max_orderbook_deviation` is positive, both book sides are filtered against
`reference × (1 ± max_deviation)` with the system's own order prices
excluded regardless of the band; otherwise the raw book is kept whole. -/
def fetch_and_update_orderbook (bids asks : List (ℚ × ℚ))
    (reference_price : Option ℚ) (max_orderbook_deviation : ℚ)
    (orders : Dict OrderData) : List (ℚ × ℚ) × List (ℚ × ℚ) :=
  match reference_price with
  | some ref =>
    if ref ≠ 0 ∧ 0 < ref ∧ 0 < max_orderbook_deviation then
      let min_allowed := ref * (1 - max_orderbook_deviation)
      let max_allowed := ref * (1 + max_orderbook_deviation)
      let own := my_order_prices orders
      (filter_levels bids own.1 min_allowed max_allowed,
        filter_levels asks own.2 min_allowed max_allowed)
    else (bids, asks)
  | none => (bids, asks)

/-- The system's own resting buy order at price 90 used by the C8
witness. -/
def own_bid_order : OrderData :=
  { id := "A", symbol := "ETH/USDT", price := "90", side := "buy",
    amount := "2", filled := "0", status := "OPEN", info := "",
    created_at := 0 }

/-- Duplicate test for one tracked order inside
`MarketMakerREST.maybe_place_order` (main.py lines 807-820): same side,
price string truthy and neither `'None'` nor `'0'`, parseable as a
decimal, and within 0.1 percent of the requested price (relative
difference measured against the requested price); a parse failure is
caught and the order skipped. -/
def is_duplicate_of (side : String) (price : ℚ) (o : OrderData) : Bool :=
  decide (o.side = side) &&
    (decide (o.price ≠ "") && decide (o.price ≠ "None") && decide (o.price ≠ "0")) &&
    (match parseDecimal o.price with
     | some order_price => decide (|order_price - price| / price < 1/1000)
     | none => false)

/-- The duplicate-suppression loop over `my_orders.values()`. -/
def has_duplicate (orders : Dict OrderData) (side : String) (price : ℚ) : Bool :=
  (dvalues orders).any (is_duplicate_of side price)

/-- Venue response to a `create_order` call, with `.get`-read fields as
options (`none` = key absent) and `str(...)` renderings carried as
strings. -/
structure PlacedOrder where
  id : String
  symbol : Option String
  price : Option String
  amount : Option String
  filled : Option String
  side : Option String
  status : Option String
  info : String
deriving DecidableEq

/-- The remote interactions of one `maybe_place_order` call:
`validate_order_funds` result, the `create_order` response (`none` when
the call raised or returned a non-dict), and the
`verify_order_placement` outcome. -/
structure PlaceAttempt where
  funds_ok : Bool
  adjusted_size : ℚ
  create_result : Option PlacedOrder
  verified : Bool

/-- Rejected-status guard (main.py lines 866-869): a truthy status whose
lower-casing is rejected, canceled or expired aborts the placement. -/
def rejected_status (status : Option String) : Bool :=
  match status with
  | some s =>
    s ≠ "" ∧ (str_lower s = "rejected" ∨ str_lower s = "canceled" ∨ str_lower s = "expired")
  | none => false

/-- Model of `MarketMakerREST.maybe_place_order` (main.py lines 803-910):
suppress duplicates against tracked orders, validate funds (using the
adjusted size from then on), place through the retry handler, drop
responses without id or with a rejected status, verify placement, then
track the verified order in `my_orders` and record it in the database.
`price_str` and `size_str` are the textual renderings of the requested
price and adjusted size used for absent response fields. -/
def maybe_place_order (symbol : String) (t : ℚ) (side : String)
    (price size : ℚ) (price_str size_str : String) (att : PlaceAttempt)
    (st : TrackerState) : TrackerState × List DbEvent :=
  if has_duplicate st.my_orders side price then (st, [])
  else if ¬ att.funds_ok then (st, [])
  else
    let size2 := att.adjusted_size
    match att.create_result with
    | none => (st, [])
    | some order =>
      if order.id = "" then (st, [])
      else if rejected_status order.status then (st, [])
      else if ¬ att.verified then (st, [])
      else
        let order_side := str_lower
          (match order.side with
           | some s => if s = "" then side else s
           | none => side)
        let od : OrderData :=
          { id := order.id, symbol := order.symbol.getD symbol,
            price := order.price.getD price_str,
            side := order_side,
            amount := order.amount.getD size_str,
            filled := order.filled.getD "0",
            status :=
              match order.status with
              | some s => if s = "" then "OPEN" else str_upper s
              | none => "OPEN",
            info := order.info, created_at := t }
        ({ st with my_orders := dinsert st.my_orders order.id od },
          [DbEvent.recordOrder order.id symbol side price size2])

/-- Tracked buy order at price `"100"` used by the C9 witness. -/
def dup_order : OrderData :=
  { id := "D", symbol := "ETH/USDT", price := "100", side := "buy",
    amount := "2", filled := "0", status := "OPEN", info := "",
    created_at := 0 }

/-- Python-level check that no id is tracked in both maps at once,
quantified over the open-order keys. -/
def orders_disjoint (st : TrackerState) : Bool :=
  (dkeys st.my_orders).all (fun k => ! dcontains st.recently_closed_orders k)

/-- Placement response whose venue-assigned id collides with a disappeared
order, used by the C5 counterexample. -/
def colliding_attempt : PlaceAttempt :=
  { funds_ok := true, adjusted_size := 1,
    create_result := some
      { id := "X", symbol := some "ETH/USDT", price := some "100",
        amount := some "1", filled := some "0", side := some "buy",
        status := some "open", info := "" },
    verified := true }

set_option allowUnsafeReducibility true

attribute [semireducible] Rat.sub Rat.add Rat.mul Rat.div Rat.neg Rat.inv

theorem dlookup_dinsert_self {α : Type} (d : Dict α) (k : String) (v : α) :
    dlookup (dinsert d k v) k = some v := by
  induction d with
  | nil => simp [dinsert, dlookup]
  | cons hd tl ih =>
    obtain ⟨k1, v1⟩ := hd
    by_cases h : k1 = k
    · simp [dinsert, dlookup, h]
    · simp [dinsert, dlookup, h, ih]

theorem dlookup_dinsert_ne {α : Type} (d : Dict α) (k k' : String) (v : α)
    (h : k' ≠ k) : dlookup (dinsert d k v) k' = dlookup d k' := by
  have hk : ¬ (k = k') := fun hh => h hh.symm
  induction d with
  | nil => simp [dinsert, dlookup, hk]
  | cons hd tl ih =>
    obtain ⟨k1, v1⟩ := hd
    by_cases h1 : k1 = k
    · subst h1
      simp [dinsert, dlookup, hk]
    · simp [dinsert, dlookup, h1, ih]

theorem dlookup_derase_self {α : Type} (d : Dict α) (k : String) :
    dlookup (derase d k) k = none := by
  induction d with
  | nil => simp [derase, dlookup]
  | cons hd tl ih =>
    obtain ⟨k1, v1⟩ := hd
    by_cases h : k1 = k
    · simpa [derase, h] using ih
    · simpa [derase, dlookup, h] using ih

theorem dlookup_derase_ne {α : Type} (d : Dict α) (k k' : String)
    (h : k' ≠ k) : dlookup (derase d k) k' = dlookup d k' := by
  induction d with
  | nil => simp [derase, dlookup]
  | cons hd tl ih =>
    obtain ⟨k1, v1⟩ := hd
    by_cases h1 : k1 = k
    · have h2 : ¬ (k1 = k') := fun hh => h (hh.symm.trans h1)
      simp only [derase, if_pos h1, dlookup, if_neg h2]
      exact ih
    · by_cases h2 : k1 = k'
      · simp only [derase, if_neg h1, dlookup, if_pos h2]
      · simp only [derase, if_neg h1, dlookup, if_neg h2]
        exact ih

theorem mem_dkeys_iff {α : Type} (d : Dict α) (k : String) :
    k ∈ dkeys d ↔ (dlookup d k).isSome := by
  induction d with
  | nil => simp [dkeys, dlookup]
  | cons hd tl ih =>
    obtain ⟨k1, v1⟩ := hd
    by_cases h : k1 = k
    · simp [dkeys, dlookup, h]
    · have hk : ¬ (k = k1) := fun hh => h hh.symm
      simp [dkeys, dlookup, h, hk, ih]

theorem dnodup_dinsert {α : Type} (d : Dict α) (k : String) (v : α)
    (h : dnodup d) : dnodup (dinsert d k v) := by
  induction d with
  | nil => simp [dnodup, dinsert, dkeys]
  | cons hd tl ih =>
    obtain ⟨k1, v1⟩ := hd
    simp only [dnodup, dkeys, List.nodup_cons] at h
    by_cases hk : k1 = k
    · simp only [dnodup, dinsert, if_pos hk, dkeys, List.nodup_cons]
      exact ⟨hk ▸ h.1, h.2⟩
    · simp only [dnodup, dinsert, if_neg hk, dkeys, List.nodup_cons]
      refine ⟨?_, ih h.2⟩
      intro hmem
      have hs := (mem_dkeys_iff (dinsert tl k v) k1).mp hmem
      rw [dlookup_dinsert_ne tl k k1 v hk] at hs
      exact h.1 ((mem_dkeys_iff tl k1).mpr hs)

theorem dkeys_derase_sublist {α : Type} (d : Dict α) (k : String) :
    List.Sublist (dkeys (derase d k)) (dkeys d) := by
  induction d with
  | nil => simp [derase, dkeys]
  | cons hd tl ih =>
    obtain ⟨k1, v1⟩ := hd
    by_cases h : k1 = k
    · simp only [derase, if_pos h, dkeys]
      exact ih.trans (List.sublist_cons_self k1 (dkeys tl))
    · simp only [derase, if_neg h, dkeys]
      exact ih.cons₂ k1

theorem dnodup_derase {α : Type} (d : Dict α) (k : String)
    (h : dnodup d) : dnodup (derase d k) := by
  exact h.sublist (dkeys_derase_sublist d k)

theorem parseDecimal_empty : parseDecimal "" = none := by decide

theorem parseDecimal_None : parseDecimal "None" = none := by decide

theorem parseDecimal_zero : parseDecimal "0" = some 0 := by decide

theorem retryGo_ok {α : Type} (base_delay max_delay : ℚ)
    (attempts : ℕ → AttemptOutcome α) (v : α) :
    ∀ j fuel a, j ≤ fuel →
      (∀ i, i < j → isTransient (attempts (a + i)) = true) →
      attempts (a + j) = .ok v →
      retryGo base_delay max_delay attempts a fuel =
        (.success v, (List.range j).map fun i => min (base_delay * 2 ^ (a + i)) max_delay) := by
  intro j
  induction j with
  | zero =>
    intro fuel a _ _ hok
    rw [Nat.add_zero] at hok
    cases fuel with
    | zero => simp [retryGo, hok]
    | succ f => simp [retryGo, hok]
  | succ j ih =>
    intro fuel a hle htr hok
    obtain ⟨f, rfl⟩ : ∃ f, fuel = f + 1 := ⟨fuel - 1, by omega⟩
    have h0 := htr 0 (Nat.succ_pos j)
    rw [Nat.add_zero] at h0
    obtain ⟨e, he⟩ : ∃ e, attempts a = .transient e := by
      cases hh : attempts a <;> simp [hh, isTransient] at h0 ⊢
    have ihr := ih f (a + 1) (by omega)
      (fun i hi => by
        have := htr (i + 1) (by omega)
        rwa [show a + (i + 1) = a + 1 + i by omega] at this)
      (by rwa [show a + 1 + j = a + (j + 1) by omega])
    simp only [retryGo, he, ihr]
    rw [List.range_succ_eq_map, List.map_cons, List.map_map]
    refine congrArg _ ?_
    congr 1
    refine List.map_congr_left ?_
    intro i _
    simp only [Function.comp]
    rw [show a + 1 + i = a + (i + 1) by omega]

theorem retryGo_fatal {α : Type} (base_delay max_delay : ℚ)
    (attempts : ℕ → AttemptOutcome α) (e : ℕ) :
    ∀ j fuel a, j ≤ fuel →
      (∀ i, i < j → isTransient (attempts (a + i)) = true) →
      attempts (a + j) = .fatal e →
      retryGo base_delay max_delay attempts a fuel =
        (.raisedFatal e, (List.range j).map fun i => min (base_delay * 2 ^ (a + i)) max_delay) := by
  intro j
  induction j with
  | zero =>
    intro fuel a _ _ hf
    rw [Nat.add_zero] at hf
    cases fuel with
    | zero => simp [retryGo, hf]
    | succ f => simp [retryGo, hf]
  | succ j ih =>
    intro fuel a hle htr hf
    obtain ⟨f, rfl⟩ : ∃ f, fuel = f + 1 := ⟨fuel - 1, by omega⟩
    have h0 := htr 0 (Nat.succ_pos j)
    rw [Nat.add_zero] at h0
    obtain ⟨e0, he⟩ : ∃ e0, attempts a = .transient e0 := by
      cases hh : attempts a <;> simp [hh, isTransient] at h0 ⊢
    have ihr := ih f (a + 1) (by omega)
      (fun i hi => by
        have := htr (i + 1) (by omega)
        rwa [show a + (i + 1) = a + 1 + i by omega] at this)
      (by rwa [show a + 1 + j = a + (j + 1) by omega])
    simp only [retryGo, he, ihr]
    rw [List.range_succ_eq_map, List.map_cons, List.map_map]
    refine congrArg _ ?_
    congr 1
    refine List.map_congr_left ?_
    intro i _
    simp only [Function.comp]
    rw [show a + 1 + i = a + (i + 1) by omega]

theorem retryGo_exhaust {α : Type} (base_delay max_delay : ℚ)
    (attempts : ℕ → AttemptOutcome α) (e : ℕ) :
    ∀ fuel a,
      (∀ i, i < fuel → isTransient (attempts (a + i)) = true) →
      attempts (a + fuel) = .transient e →
      retryGo base_delay max_delay attempts a fuel =
        (.raisedTransient e, (List.range fuel).map fun i => min (base_delay * 2 ^ (a + i)) max_delay) := by
  intro fuel
  induction fuel with
  | zero =>
    intro a _ hf
    rw [Nat.add_zero] at hf
    simp [retryGo, hf]
  | succ f ih =>
    intro a htr hf
    have h0 := htr 0 (Nat.succ_pos f)
    rw [Nat.add_zero] at h0
    obtain ⟨e0, he⟩ : ∃ e0, attempts a = .transient e0 := by
      cases hh : attempts a <;> simp [hh, isTransient] at h0 ⊢
    have ihr := ih (a + 1)
      (fun i hi => by
        have := htr (i + 1) (by omega)
        rwa [show a + (i + 1) = a + 1 + i by omega] at this)
      (by rwa [show a + 1 + f = a + (f + 1) by omega])
    simp only [retryGo, he, ihr]
    rw [List.range_succ_eq_map, List.map_cons, List.map_map]
    refine congrArg _ ?_
    congr 1
    refine List.map_congr_left ?_
    intro i _
    simp only [Function.comp]
    rw [show a + 1 + i = a + (i + 1) by omega]

/-- C7: `retry_with_backoff` retries an operation that raises a transient
error up to `max_retries` times (default 3) beyond the initial attempt,
sleeping `min(base_delay * 2 ^ attempt, max_delay)` before each retry; any
other exception class is re-raised immediately with zero further retries;
after exhausting all retries the last transient error is raised; a
successful attempt returns the operation's result unchanged. -/
theorem retry_with_backoff_spec {α : Type} (max_retries : ℕ)
    (base_delay max_delay : ℚ) (attempts : ℕ → AttemptOutcome α) :
    (∀ j v, j ≤ max_retries → (∀ i, i < j → isTransient (attempts i) = true) →
      attempts j = .ok v →
      retry_with_backoff max_retries base_delay max_delay attempts =
        (.success v, (List.range j).map fun i => min (base_delay * 2 ^ i) max_delay))
    ∧ (∀ j e, j ≤ max_retries → (∀ i, i < j → isTransient (attempts i) = true) →
      attempts j = .fatal e →
      retry_with_backoff max_retries base_delay max_delay attempts =
        (.raisedFatal e, (List.range j).map fun i => min (base_delay * 2 ^ i) max_delay))
    ∧ (∀ e, (∀ i, i < max_retries → isTransient (attempts i) = true) →
      attempts max_retries = .transient e →
      retry_with_backoff max_retries base_delay max_delay attempts =
        (.raisedTransient e, (List.range max_retries).map fun i => min (base_delay * 2 ^ i) max_delay)) := by
  refine ⟨?_, ?_, ?_⟩
  · intro j v hj htr hok
    have h := retryGo_ok base_delay max_delay attempts v j max_retries 0 hj
      (fun i hi => by simpa using htr i hi) (by simpa using hok)
    simpa [retry_with_backoff] using h
  · intro j e hj htr hf
    have h := retryGo_fatal base_delay max_delay attempts e j max_retries 0 hj
      (fun i hi => by simpa using htr i hi) (by simpa using hf)
    simpa [retry_with_backoff] using h
  · intro e htr hf
    have h := retryGo_exhaust base_delay max_delay attempts e max_retries 0
      (fun i hi => by simpa using htr i hi) (by simpa using hf)
    simpa [retry_with_backoff] using h

/-- Witness for C7: with the default three retries, a first attempt that
times out followed by a success returns the value after one backoff sleep
of `min(2 * 2 ^ 0, 30) = 2` seconds. -/
theorem retry_with_backoff_spec_witness :
    retry_with_backoff 3 2 30
        (fun i => if i = 0 then AttemptOutcome.transient 7 else AttemptOutcome.ok 5) =
      (CallResult.success 5, [2]) := by
  have h := (retry_with_backoff_spec (α := ℕ) 3 2 30
      (fun i => if i = 0 then AttemptOutcome.transient 7 else AttemptOutcome.ok 5)).1 1 5
    (by omega)
    (fun i hi => by
      have hi0 : i = 0 := by omega
      subst hi0
      decide)
    (by decide)
  rw [h]
  norm_num [List.range_succ]

theorem process_order_eq (t : ℚ) (st : TrackerState) (o : VenueOrder) :
    process_order t st o =
      { my_orders := dinsert st.my_orders o.id
          (mk_polled_order (created_at_for t st o.id) o),
        recently_closed_orders :=
          if dcontains st.recently_closed_orders o.id then
            derase st.recently_closed_orders o.id
          else st.recently_closed_orders } := by
  rfl

theorem dlookup_conderase {α : Type} (d : Dict α) (k' k : String) :
    dlookup (if dcontains d k' then derase d k' else d) k =
      if k' = k then none else dlookup d k := by
  by_cases hk : k' = k
  · subst hk
    by_cases hc : dcontains d k'
    · simp [hc, dlookup_derase_self]
    · have hl : dlookup d k' = none := by
        unfold dcontains at hc
        exact Option.not_isSome_iff_eq_none.mp hc
      simp [hc, hl]
  · by_cases hc : dcontains d k'
    · simp [hc, hk, dlookup_derase_ne d k' k (fun hh => hk hh.symm)]
    · simp [hc, hk]

theorem processOrders_my_lookup (t : ℚ) (orders : List VenueOrder) :
    ∀ st k, dlookup (orders.foldl (process_order t) st).my_orders k =
      match last_occurrence orders k with
      | some o => some (mk_polled_order (created_at_for t st k) o)
      | none => dlookup st.my_orders k := by
  induction orders with
  | nil => intro st k; simp [last_occurrence]
  | cons o rest ih =>
    intro st k
    rw [List.foldl_cons, ih (process_order t st o) k]
    by_cases hid : o.id = k
    · subst hid
      have hca : created_at_for t (process_order t st o) o.id =
          created_at_for t st o.id := by
        simp [created_at_for, process_order_eq, dlookup_dinsert_self, mk_polled_order]
      cases hlast : last_occurrence rest o.id with
      | some o2 => simp [last_occurrence, hlast, hca]
      | none =>
        simp [last_occurrence, hlast, process_order_eq, dlookup_dinsert_self]
    · have hca : created_at_for t (process_order t st o) k =
          created_at_for t st k := by
        simp [created_at_for, process_order_eq,
          dlookup_dinsert_ne st.my_orders o.id k _ (fun hh => hid hh.symm)]
      cases hlast : last_occurrence rest k with
      | some o2 => simp [last_occurrence, hlast, hca, hid]
      | none =>
        simp [last_occurrence, hlast, hid, process_order_eq,
          dlookup_dinsert_ne st.my_orders o.id k _ (fun hh => hid hh.symm)]

theorem processOrders_rc_lookup (t : ℚ) (orders : List VenueOrder) :
    ∀ st k, dlookup (orders.foldl (process_order t) st).recently_closed_orders k =
      if k ∈ orders.map VenueOrder.id then none
      else dlookup st.recently_closed_orders k := by
  induction orders with
  | nil => intro st k; simp
  | cons o rest ih =>
    intro st k
    rw [List.foldl_cons, ih (process_order t st o) k]
    have hrc : dlookup (process_order t st o).recently_closed_orders k =
        if o.id = k then none else dlookup st.recently_closed_orders k := by
      rw [process_order_eq]
      exact dlookup_conderase st.recently_closed_orders o.id k
    by_cases hmem : k ∈ rest.map VenueOrder.id
    · simp [hmem]
    · by_cases hid : o.id = k
      · simp [hmem, hid, hrc]
      · have hcons : ¬ k ∈ (o :: rest).map VenueOrder.id := by
          simp only [List.map_cons, List.mem_cons]
          push_neg
          exact ⟨fun hh => hid hh.symm, hmem⟩
        have hid2 : ¬ (k = o.id) := fun hh => hid hh.symm
        simp [hmem, hid, hid2, hrc, hcons]

theorem list_contains_iff (l : List String) (k : String) :
    l.contains k = true ↔ k ∈ l :=
  List.elem_iff

theorem disappear_one_my_self (t : ℚ) (st : TrackerState) (old_id : String) :
    dlookup (disappear_one t st old_id).my_orders old_id = none := by
  unfold disappear_one
  cases hl : dlookup st.my_orders old_id <;> simp [hl, dlookup_derase_self]

theorem disappear_one_my_ne (t : ℚ) (st : TrackerState) (old_id k : String)
    (h : k ≠ old_id) :
    dlookup (disappear_one t st old_id).my_orders k = dlookup st.my_orders k := by
  unfold disappear_one
  cases hl : dlookup st.my_orders old_id <;>
    simp [hl, dlookup_derase_ne st.my_orders old_id k h]

theorem disappear_one_rc_ne (t : ℚ) (st : TrackerState) (old_id k : String)
    (h : k ≠ old_id) :
    dlookup (disappear_one t st old_id).recently_closed_orders k =
      dlookup st.recently_closed_orders k := by
  unfold disappear_one
  cases hl : dlookup st.my_orders old_id with
  | some od =>
    by_cases hc : dcontains st.recently_closed_orders old_id
    · simp [hl, hc]
    · simp [hl, hc, dlookup_dinsert_ne st.recently_closed_orders old_id k _ h]
  | none => simp [hl]

theorem foldl_disappear_my (t : ℚ) :
    ∀ (l : List String) (st : TrackerState) (k : String),
      dlookup (l.foldl (disappear_one t) st).my_orders k =
        if k ∈ l then none else dlookup st.my_orders k := by
  intro l
  induction l with
  | nil => intro st k; simp
  | cons old_id rest ih =>
    intro st k
    rw [List.foldl_cons, ih (disappear_one t st old_id) k]
    by_cases hmem : k ∈ rest
    · simp [hmem]
    · by_cases hk : k = old_id
      · subst hk
        simp [hmem, disappear_one_my_self t st k]
      · have hcons : ¬ k ∈ old_id :: rest := by
          simp only [List.mem_cons]
          push_neg
          exact ⟨hk, hmem⟩
        simp [hmem, hcons, disappear_one_my_ne t st old_id k hk]

theorem foldl_disappear_rc (t : ℚ) :
    ∀ (l : List String) (st : TrackerState) (k : String),
      dlookup (l.foldl (disappear_one t) st).recently_closed_orders k =
        match dlookup st.recently_closed_orders k, dlookup st.my_orders k with
        | some e, _ => some e
        | none, some od => if k ∈ l then some { order := od, disappeared_at := t } else none
        | none, none => none := by
  intro l
  induction l with
  | nil =>
    intro st k
    cases hrc : dlookup st.recently_closed_orders k <;>
      cases hmy : dlookup st.my_orders k <;> simp [hrc, hmy]
  | cons old_id rest ih =>
    intro st k
    rw [List.foldl_cons, ih (disappear_one t st old_id) k]
    by_cases hk : k = old_id
    · subst hk
      have h2 := disappear_one_my_self t st k
      cases hmy : dlookup st.my_orders k with
      | some od =>
        cases hrc : dlookup st.recently_closed_orders k with
        | some e =>
          have hc : dcontains st.recently_closed_orders k := by
            simp [dcontains, hrc]
          have h1 : dlookup (disappear_one t st k).recently_closed_orders k = some e := by
            unfold disappear_one
            simp [hmy, hc, hrc]
          simp [h1, h2, hrc, hmy]
        | none =>
          have hc : ¬ dcontains st.recently_closed_orders k := by
            simp [dcontains, hrc]
          have h1 : dlookup (disappear_one t st k).recently_closed_orders k =
              some { order := od, disappeared_at := t } := by
            unfold disappear_one
            simp only [hmy]
            simp [hc, dlookup_dinsert_self]
          simp [h1, h2, hrc, hmy]
      | none =>
        have h1 : dlookup (disappear_one t st k).recently_closed_orders k =
            dlookup st.recently_closed_orders k := by
          unfold disappear_one
          simp [hmy]
        cases hrc : dlookup st.recently_closed_orders k with
        | some e => simp [h1, h2, hrc, hmy]
        | none => simp [h1, h2, hrc, hmy]
    · rw [disappear_one_rc_ne t st old_id k hk, disappear_one_my_ne t st old_id k hk]
      have hiff : (k ∈ old_id :: rest) ↔ (k ∈ rest) := by
        simp [List.mem_cons, hk]
      cases hrc : dlookup st.recently_closed_orders k with
      | some e => rfl
      | none =>
        cases hmy : dlookup st.my_orders k with
        | some od => simp [hiff]
        | none => rfl

theorem handle_disappeared_my_lookup (t : ℚ) (cur : List String)
    (st : TrackerState) (k : String) :
    dlookup (handle_disappeared_orders t cur st).my_orders k =
      if k ∈ cur then dlookup st.my_orders k else none := by
  unfold handle_disappeared_orders
  rw [foldl_disappear_my t _ st k]
  have hfil : (k ∈ (dkeys st.my_orders).filter (fun k2 => ¬ cur.contains k2)) ↔
      ((dlookup st.my_orders k).isSome ∧ ¬ k ∈ cur) := by
    rw [List.mem_filter]
    constructor
    · intro ⟨ha, hb⟩
      refine ⟨(mem_dkeys_iff st.my_orders k).mp ha, ?_⟩
      intro hmem
      rw [decide_eq_true_eq] at hb
      exact hb ((list_contains_iff cur k).mpr hmem)
    · intro ⟨ha, hb⟩
      refine ⟨(mem_dkeys_iff st.my_orders k).mpr ha, ?_⟩
      rw [decide_eq_true_eq]
      intro hmem
      exact hb ((list_contains_iff cur k).mp hmem)
  by_cases hcur : k ∈ cur
  · have : ¬ k ∈ (dkeys st.my_orders).filter (fun k2 => ¬ cur.contains k2) := by
      rw [hfil]
      push_neg
      intro _
      exact hcur
    simp [hcur, this]
  · by_cases hl : (dlookup st.my_orders k).isSome
    · have : k ∈ (dkeys st.my_orders).filter (fun k2 => ¬ cur.contains k2) :=
        hfil.mpr ⟨hl, hcur⟩
      simp [hcur, this]
      intro hnd
      exact Option.not_isSome_iff_eq_none.mp
        (fun hs => hnd ((mem_dkeys_iff st.my_orders k).mpr hs))
    · have hnone : dlookup st.my_orders k = none :=
        Option.not_isSome_iff_eq_none.mp hl
      by_cases hmem : k ∈ (dkeys st.my_orders).filter (fun k2 => ¬ cur.contains k2)
      · simp [hcur, hmem, hnone]
      · simp [hcur, hmem, hnone]

theorem handle_disappeared_rc_lookup (t : ℚ) (cur : List String)
    (st : TrackerState) (k : String) :
    dlookup (handle_disappeared_orders t cur st).recently_closed_orders k =
      match dlookup st.recently_closed_orders k, dlookup st.my_orders k with
      | some e, _ => some e
      | none, some od =>
        if k ∈ cur then none else some { order := od, disappeared_at := t }
      | none, none => none := by
  unfold handle_disappeared_orders
  rw [foldl_disappear_rc t _ st k]
  cases hrc : dlookup st.recently_closed_orders k with
  | some e => rfl
  | none =>
    cases hmy : dlookup st.my_orders k with
    | some od =>
      have hfil : (k ∈ (dkeys st.my_orders).filter (fun k2 => ¬ cur.contains k2)) ↔
          ¬ k ∈ cur := by
        rw [List.mem_filter]
        constructor
        · intro ⟨_, hb⟩
          rw [decide_eq_true_eq] at hb
          intro hmem
          exact hb ((list_contains_iff cur k).mpr hmem)
        · intro hb
          refine ⟨(mem_dkeys_iff st.my_orders k).mpr (by simp [hmy]), ?_⟩
          rw [decide_eq_true_eq]
          intro hmem
          exact hb ((list_contains_iff cur k).mp hmem)
      by_cases hcur : k ∈ cur
      · have : ¬ k ∈ (dkeys st.my_orders).filter (fun k2 => ¬ cur.contains k2) := by
          rw [hfil]
          push_neg
          exact hcur
        simp [hcur, this]
      · have : k ∈ (dkeys st.my_orders).filter (fun k2 => ¬ cur.contains k2) :=
          hfil.mpr hcur
        simp [hcur, this]
        exact (mem_dkeys_iff st.my_orders k).mpr (by simp [hmy])
    | none => rfl

theorem settle_events_congr (f : String → Option (Option String))
    (rc1 rc2 : Dict OrderDataWithDisappeared) :
    ∀ l, (∀ k, k ∈ l → dlookup rc1 k = dlookup rc2 k) →
      settle_events f rc1 l = settle_events f rc2 l := by
  intro l
  induction l with
  | nil => intro _; rfl
  | cons k rest ih =>
    intro h
    have hk := h k (List.mem_cons_self k rest)
    rw [settle_events, settle_events, hk,
      ih (fun k2 hk2 => h k2 (List.mem_cons_of_mem k hk2))]

theorem foldl_settle (f : String → Option (Option String)) :
    ∀ (l : List String) (st : TrackerState) (evs0 : List DbEvent), l.Nodup →
      ((l.foldl (settle_one f) (st, evs0)).1.my_orders = st.my_orders)
      ∧ (∀ k, dlookup (l.foldl (settle_one f) (st, evs0)).1.recently_closed_orders k =
          if k ∈ l then none else dlookup st.recently_closed_orders k)
      ∧ ((l.foldl (settle_one f) (st, evs0)).2 =
          evs0 ++ settle_events f st.recently_closed_orders l) := by
  intro l
  induction l with
  | nil => intro st evs0 _; simp [settle_events]
  | cons k rest ih =>
    intro st evs0 hnd
    have hnd2 := List.nodup_cons.mp hnd
    rw [List.foldl_cons]
    cases hlk : dlookup st.recently_closed_orders k with
    | some od =>
      have hstep : settle_one f (st, evs0) k =
          ({ st with recently_closed_orders := derase st.recently_closed_orders k },
            evs0 ++ finalize_closed_order k od (f k)) := by
        unfold settle_one
        simp [hlk]
      rw [hstep]
      obtain ⟨ihmy, ihrc, ihev⟩ := ih _ _ hnd2.2
      refine ⟨by simpa using ihmy, ?_, ?_⟩
      · intro k2
        rw [ihrc k2]
        by_cases hmem : k2 ∈ rest
        · simp [hmem]
        · by_cases hk2 : k2 = k
          · subst hk2
            simp [hmem, dlookup_derase_self]
          · have hcons : ¬ k2 ∈ k :: rest := by
              simp only [List.mem_cons]
              push_neg
              exact ⟨hk2, hmem⟩
            simp [hmem, hcons, dlookup_derase_ne st.recently_closed_orders k k2 hk2]
      · rw [ihev]
        have hcg : settle_events f (derase st.recently_closed_orders k) rest =
            settle_events f st.recently_closed_orders rest := by
          refine settle_events_congr f _ _ rest (fun k2 hk2 => ?_)
          exact dlookup_derase_ne st.recently_closed_orders k k2
            (fun hh => hnd2.1 (hh ▸ hk2))
        rw [hcg, settle_events, hlk]
        simp
    | none =>
      have hstep : settle_one f (st, evs0) k = (st, evs0) := by
        unfold settle_one
        simp [hlk]
      rw [hstep]
      obtain ⟨ihmy, ihrc, ihev⟩ := ih st evs0 hnd2.2
      refine ⟨ihmy, ?_, ?_⟩
      · intro k2
        rw [ihrc k2]
        by_cases hmem : k2 ∈ rest
        · simp [hmem]
        · by_cases hk2 : k2 = k
          · subst hk2
            simp [hmem, hlk]
          · have hcons : ¬ k2 ∈ k :: rest := by
              simp only [List.mem_cons]
              push_neg
              exact ⟨hk2, hmem⟩
            simp [hmem, hcons]
      · rw [ihev, settle_events, hlk]
        simp

theorem dkeys_filter_sublist {α : Type} (d : Dict α) (p : String × α → Bool) :
    List.Sublist (dkeys (d.filter p)) (dkeys d) := by
  induction d with
  | nil => simp [dkeys]
  | cons hd tl ih =>
    obtain ⟨k1, v1⟩ := hd
    by_cases hp : p (k1, v1)
    · rw [List.filter_cons_of_pos hp, dkeys, dkeys]
      exact ih.cons₂ k1
    · rw [List.filter_cons_of_neg (by simpa using hp), dkeys]
      exact ih.trans (List.sublist_cons_self k1 (dkeys tl))

theorem mem_dkeys_filter {α : Type} (d : Dict α) (p : String × α → Bool)
    (hnd : dnodup d) (k : String) :
    k ∈ dkeys (d.filter p) ↔
      ∃ v, dlookup d k = some v ∧ p (k, v) = true := by
  induction d with
  | nil => simp [dkeys, dlookup]
  | cons hd tl ih =>
    obtain ⟨k1, v1⟩ := hd
    simp only [dnodup, dkeys, List.nodup_cons] at hnd
    by_cases hk : k1 = k
    · subst hk
      by_cases hp : p (k1, v1)
      · rw [List.filter_cons_of_pos hp, dkeys]
        simp [dlookup, hp]
      · rw [List.filter_cons_of_neg (by simpa using hp)]
        constructor
        · intro hmem
          have hs := (mem_dkeys_iff (tl.filter p) k1).mp
            ((mem_dkeys_iff (List.filter p tl) k1).mpr ?_)
          · exfalso
            have hsub := dkeys_filter_sublist tl p
            have : k1 ∈ dkeys tl := hsub.mem hmem
            exact hnd.1 this
          · exact (mem_dkeys_iff (List.filter p tl) k1).mp hmem
        · intro ⟨v, hv, hpv⟩
          rw [dlookup, if_pos rfl] at hv
          cases hv
          exact absurd hpv (by simpa using hp)
    · rw [dlookup, if_neg hk]
      by_cases hp : p (k1, v1)
      · rw [List.filter_cons_of_pos hp, dkeys]
        have hk2 : ¬ (k = k1) := fun hh => hk hh.symm
        simp only [List.mem_cons]
        rw [ih hnd.2]
        constructor
        · intro h
          rcases h with h | h
          · exact absurd h.symm hk
          · exact h
        · intro h
          exact Or.inr h
      · rw [List.filter_cons_of_neg (by simpa using hp)]
        exact ih hnd.2

theorem events_for_append (oid : String) (a b : List DbEvent) :
    events_for oid (a ++ b) = events_for oid a ++ events_for oid b := by
  unfold events_for
  exact List.filter_append a b

theorem events_for_finalize_self (oid : String) (od : OrderDataWithDisappeared)
    (r : Option (Option String)) :
    events_for oid (finalize_closed_order oid od r) = finalize_closed_order oid od r := by
  simp only [finalize_closed_order, events_for]
  split <;> simp [event_order_id]

theorem events_for_finalize_ne (oid k : String) (od : OrderDataWithDisappeared)
    (r : Option (Option String)) (h : ¬ k = oid) :
    events_for oid (finalize_closed_order k od r) = [] := by
  simp only [finalize_closed_order, events_for]
  split <;> simp [event_order_id, h]

theorem events_for_settle (f : String → Option (Option String))
    (rc : Dict OrderDataWithDisappeared) :
    ∀ l, l.Nodup → ∀ oid,
      events_for oid (settle_events f rc l) =
        if oid ∈ l then
          (match dlookup rc oid with
           | some od => finalize_closed_order oid od (f oid)
           | none => [])
        else [] := by
  intro l
  induction l with
  | nil => intro _ oid; simp [settle_events, events_for]
  | cons k rest ih =>
    intro hnd oid
    have hnd2 := List.nodup_cons.mp hnd
    rw [settle_events, events_for_append, ih hnd2.2 oid]
    by_cases hk : k = oid
    · subst hk
      have hmem : ¬ k ∈ rest := hnd2.1
      cases hlk : dlookup rc k with
      | some od =>
        rw [events_for_finalize_self k od (f k)]
        simp [hmem, hlk]
      | none => simp [hmem, hlk, events_for]
    · have hiff : (oid ∈ k :: rest) ↔ (oid ∈ rest) := by
        simp only [List.mem_cons]
        constructor
        · intro h
          rcases h with h | h
          · exact absurd h.symm hk
          · exact h
        · exact Or.inr
      have hhead : events_for oid
          (match dlookup rc k with
           | some od => finalize_closed_order k od (f k)
           | none => []) = [] := by
        cases hlk : dlookup rc k with
        | some od => exact events_for_finalize_ne oid k od (f k) hk
        | none => simp [events_for]
      rw [hhead]
      by_cases hmem : oid ∈ rest
      · simp [hmem, hiff.mpr hmem]
      · simp [hmem, fun hh => hmem (hiff.mp hh)]
        intro heq
        exact absurd heq.symm hk

theorem finalize_closed_order_ne_nil (oid : String) (od : OrderDataWithDisappeared)
    (r : Option (Option String)) : finalize_closed_order oid od r ≠ [] := by
  simp only [finalize_closed_order]
  split <;> simp

theorem process_settled_spec (t timeout : ℚ) (f : String → Option (Option String))
    (st : TrackerState) (hnd : dnodup st.recently_closed_orders) :
    ((process_settled_orders t timeout f st).1.my_orders = st.my_orders)
    ∧ (∀ k, dlookup (process_settled_orders t timeout f st).1.recently_closed_orders k =
        match dlookup st.recently_closed_orders k with
        | some e => if timeout ≤ t - e.disappeared_at then none else some e
        | none => none)
    ∧ ((process_settled_orders t timeout f st).2 =
        settle_events f st.recently_closed_orders
          (dkeys (st.recently_closed_orders.filter
            (fun kv => timeout ≤ t - kv.2.disappeared_at)))) := by
  unfold process_settled_orders
  have hndf : (dkeys (st.recently_closed_orders.filter
      (fun kv => timeout ≤ t - kv.2.disappeared_at))).Nodup :=
    hnd.sublist (dkeys_filter_sublist st.recently_closed_orders _)
  obtain ⟨hmy, hrc, hev⟩ := foldl_settle f _ st [] hndf
  refine ⟨hmy, ?_, by simpa using hev⟩
  intro k
  rw [hrc k]
  cases hlk : dlookup st.recently_closed_orders k with
  | some e =>
    by_cases hp : timeout ≤ t - e.disappeared_at
    · have hmem : k ∈ dkeys (st.recently_closed_orders.filter
          (fun kv => timeout ≤ t - kv.2.disappeared_at)) := by
        rw [mem_dkeys_filter _ _ hnd k]
        exact ⟨e, hlk, by simpa using hp⟩
      simp [hmem, hp]
    · have hmem : ¬ k ∈ dkeys (st.recently_closed_orders.filter
          (fun kv => timeout ≤ t - kv.2.disappeared_at)) := by
        rw [mem_dkeys_filter _ _ hnd k]
        intro ⟨v, hv, hpv⟩
        rw [hlk] at hv
        cases hv
        exact hp (by simpa using hpv)
      simp [hmem, hp, hlk]
  | none =>
    have hmem : ¬ k ∈ dkeys (st.recently_closed_orders.filter
        (fun kv => timeout ≤ t - kv.2.disappeared_at)) := by
      rw [mem_dkeys_filter _ _ hnd k]
      intro ⟨v, hv, _⟩
      rw [hlk] at hv
      cases hv
    simp [hmem, hlk]

/-- C3: a disappeared order is selected for finalization exactly when the
current time minus its `disappeared_at` timestamp is at least the
settlement timeout: in that case its entry is popped and its finalization
events are emitted on that poll, and otherwise nothing is emitted for it
and its entry is kept unchanged; the open-order map is never touched by
settlement processing. -/
theorem process_settled_orders_timing (t timeout : ℚ)
    (f : String → Option (Option String)) (st : TrackerState)
    (oid : String) (od : OrderDataWithDisappeared)
    (hnd : dnodup st.recently_closed_orders)
    (hod : dlookup st.recently_closed_orders oid = some od) :
    (events_for oid (process_settled_orders t timeout f st).2 =
        if timeout ≤ t - od.disappeared_at then finalize_closed_order oid od (f oid) else [])
    ∧ (events_for oid (process_settled_orders t timeout f st).2 ≠ [] ↔
        timeout ≤ t - od.disappeared_at)
    ∧ (dlookup (process_settled_orders t timeout f st).1.recently_closed_orders oid =
        if timeout ≤ t - od.disappeared_at then none else some od)
    ∧ (process_settled_orders t timeout f st).1.my_orders = st.my_orders := by
  obtain ⟨hmy, hrc, hev⟩ := process_settled_spec t timeout f st hnd
  have hndf : (dkeys (st.recently_closed_orders.filter
      (fun kv => timeout ≤ t - kv.2.disappeared_at))).Nodup :=
    hnd.sublist (dkeys_filter_sublist st.recently_closed_orders _)
  have hevf : events_for oid (process_settled_orders t timeout f st).2 =
      if timeout ≤ t - od.disappeared_at then finalize_closed_order oid od (f oid)
      else [] := by
    rw [hev, events_for_settle f st.recently_closed_orders _ hndf oid]
    by_cases hp : timeout ≤ t - od.disappeared_at
    · have hmem : oid ∈ dkeys (st.recently_closed_orders.filter
          (fun kv => timeout ≤ t - kv.2.disappeared_at)) := by
        rw [mem_dkeys_filter _ _ hnd oid]
        exact ⟨od, hod, by simpa using hp⟩
      simp [hmem, hod, hp]
    · have hmem : ¬ oid ∈ dkeys (st.recently_closed_orders.filter
          (fun kv => timeout ≤ t - kv.2.disappeared_at)) := by
        rw [mem_dkeys_filter _ _ hnd oid]
        rintro ⟨v, hv, hpv⟩
        rw [hod] at hv
        cases hv
        exact hp (by simpa using hpv)
      simp [hmem, hp]
  refine ⟨hevf, ?_, ?_, hmy⟩
  · rw [hevf]
    by_cases hp : timeout ≤ t - od.disappeared_at
    · simp [hp, finalize_closed_order_ne_nil]
    · simp [hp]
  · rw [hrc oid, hod]

/-- Witness for C3: an order that disappeared at time 0 is finalized on the
poll at time 60 with the default 60-second settlement timeout (the
boundary case `elapsed = timeout`). -/
theorem process_settled_orders_timing_witness :
    events_for "A" (process_settled_orders 60 60 (fun _ => none)
      { my_orders := [], recently_closed_orders := [("A", sample_disappeared)] }).2 ≠ [] := by
  exact (process_settled_orders_timing 60 60 (fun _ => none)
      { my_orders := [], recently_closed_orders := [("A", sample_disappeared)] }
      "A" sample_disappeared (by decide) (by decide)).2.1.mpr
    (by norm_num [sample_disappeared])

theorem fetch_open_orders_some_eq (t timeout : ℚ)
    (f : String → Option (Option String)) (orders : List VenueOrder)
    (st : TrackerState) :
    fetch_open_orders t timeout (some orders) f st =
      process_settled_orders t timeout f
        (handle_disappeared_orders t (orders.map (fun o => o.id))
          (orders.foldl (process_order t) st)) := rfl

theorem foldl_settle_my (f : String → Option (Option String)) :
    ∀ (l : List String) (acc : TrackerState × List DbEvent),
      (l.foldl (settle_one f) acc).1.my_orders = acc.1.my_orders := by
  intro l
  induction l with
  | nil => intro acc; rfl
  | cons k rest ih =>
    intro acc
    rw [List.foldl_cons, ih]
    unfold settle_one
    cases dlookup acc.1.recently_closed_orders k <;> rfl

theorem process_settled_my (t timeout : ℚ) (f : String → Option (Option String))
    (st : TrackerState) :
    (process_settled_orders t timeout f st).1.my_orders = st.my_orders := by
  unfold process_settled_orders
  exact foldl_settle_my f _ _

theorem last_occurrence_isSome_iff (orders : List VenueOrder) (k : String) :
    (last_occurrence orders k).isSome ↔ k ∈ orders.map VenueOrder.id := by
  induction orders with
  | nil => simp [last_occurrence]
  | cons o rest ih =>
    rw [last_occurrence]
    cases hl : last_occurrence rest k with
    | some o2 =>
      simp only [Option.isSome_some, true_iff]
      have := ih.mp (by simp [hl])
      simp [this]
    | none =>
      by_cases hid : o.id = k
      · simp [hid]
      · have hk : ¬ (k = o.id) := fun hh => hid hh.symm
        simp only [if_neg hid, List.map_cons, List.mem_cons]
        rw [← ih]
        simp [hl, hk]

theorem rc_nodup_process_orders (t : ℚ) :
    ∀ (orders : List VenueOrder) (st : TrackerState),
      dnodup st.recently_closed_orders →
      dnodup ((orders.foldl (process_order t) st)).recently_closed_orders := by
  intro orders
  induction orders with
  | nil => intro st h; exact h
  | cons o rest ih =>
    intro st h
    rw [List.foldl_cons]
    refine ih _ ?_
    rw [process_order_eq]
    by_cases hc : dcontains st.recently_closed_orders o.id
    · simpa [hc] using dnodup_derase _ _ h
    · simpa [hc] using h

theorem rc_nodup_disappear (t : ℚ) :
    ∀ (l : List String) (st : TrackerState),
      dnodup st.recently_closed_orders →
      dnodup ((l.foldl (disappear_one t) st)).recently_closed_orders := by
  intro l
  induction l with
  | nil => intro st h; exact h
  | cons old_id rest ih =>
    intro st h
    rw [List.foldl_cons]
    refine ih _ ?_
    unfold disappear_one
    cases hl : dlookup st.my_orders old_id with
    | some od =>
      by_cases hc : dcontains st.recently_closed_orders old_id
      · simpa [hc] using h
      · simpa [hc] using dnodup_dinsert _ _ _ h
    | none => simpa using h

theorem rc_nodup_settle (f : String → Option (Option String)) :
    ∀ (l : List String) (acc : TrackerState × List DbEvent),
      dnodup acc.1.recently_closed_orders →
      dnodup ((l.foldl (settle_one f) acc)).1.recently_closed_orders := by
  intro l
  induction l with
  | nil => intro acc h; exact h
  | cons k rest ih =>
    intro acc h
    rw [List.foldl_cons]
    refine ih _ ?_
    unfold settle_one
    cases hl : dlookup acc.1.recently_closed_orders k with
    | some od => simpa using dnodup_derase _ _ h
    | none => simpa using h

theorem fetch_rc_nodup (t timeout : ℚ) (resp : Option (List VenueOrder))
    (f : String → Option (Option String)) (st : TrackerState)
    (hnd : dnodup st.recently_closed_orders) :
    dnodup (fetch_open_orders t timeout resp f st).1.recently_closed_orders := by
  cases resp with
  | none => exact hnd
  | some orders =>
    rw [fetch_open_orders_some_eq]
    unfold process_settled_orders
    exact rc_nodup_settle f _ _
      (rc_nodup_disappear t _ _ (rc_nodup_process_orders t orders st hnd))

theorem fetch_my_lookup (t timeout : ℚ) (f : String → Option (Option String))
    (orders : List VenueOrder) (st : TrackerState) (k : String) :
    dlookup (fetch_open_orders t timeout (some orders) f st).1.my_orders k =
      match last_occurrence orders k with
      | some o => some (mk_polled_order (created_at_for t st k) o)
      | none => none := by
  rw [fetch_open_orders_some_eq, process_settled_my,
    handle_disappeared_my_lookup, processOrders_my_lookup]
  by_cases hmem : k ∈ orders.map (fun o => o.id)
  · have hsome : (last_occurrence orders k).isSome :=
      (last_occurrence_isSome_iff orders k).mpr (by simpa using hmem)
    cases hl : last_occurrence orders k with
    | some o => simp [hmem]
    | none => rw [hl] at hsome; simp at hsome
  · have hnone : last_occurrence orders k = none := by
      cases hl : last_occurrence orders k with
      | some o =>
        exact absurd ((last_occurrence_isSome_iff orders k).mp (by simp [hl]))
          (by simpa using hmem)
      | none => rfl
    simp [hmem, hnone]

theorem fetch_rc_lookup (t timeout : ℚ) (f : String → Option (Option String))
    (orders : List VenueOrder) (st : TrackerState)
    (hnd : dnodup st.recently_closed_orders) (k : String) :
    dlookup (fetch_open_orders t timeout (some orders) f st).1.recently_closed_orders k =
      if k ∈ orders.map VenueOrder.id then none
      else
        match dlookup st.recently_closed_orders k, dlookup st.my_orders k with
        | some e, _ => if timeout ≤ t - e.disappeared_at then none else some e
        | none, some od =>
          if timeout ≤ t - t then none else some { order := od, disappeared_at := t }
        | none, none => none := by
  rw [fetch_open_orders_some_eq]
  have hnd2 : dnodup (handle_disappeared_orders t (orders.map (fun o => o.id))
      (orders.foldl (process_order t) st)).recently_closed_orders :=
    rc_nodup_disappear t _ _ (rc_nodup_process_orders t orders st hnd)
  rw [(process_settled_spec t timeout f _ hnd2).2.1 k,
    handle_disappeared_rc_lookup, processOrders_rc_lookup, processOrders_my_lookup]
  by_cases hmem : k ∈ orders.map VenueOrder.id
  · have hmem2 : k ∈ orders.map (fun o => o.id) := by simpa using hmem
    have hsome : (last_occurrence orders k).isSome :=
      (last_occurrence_isSome_iff orders k).mpr hmem
    cases hl : last_occurrence orders k with
    | some o => simp [hmem, hmem2, hl]
    | none => rw [hl] at hsome; simp at hsome
  · have hmem2 : ¬ k ∈ orders.map (fun o => o.id) := by simpa using hmem
    have hnone : last_occurrence orders k = none := by
      cases hl : last_occurrence orders k with
      | some o =>
        exact absurd ((last_occurrence_isSome_iff orders k).mp (by simp [hl])) hmem
      | none => rfl
    cases hrc : dlookup st.recently_closed_orders k with
    | some e => simp [hmem, hmem2, hnone, hrc]
    | none =>
      cases hmy : dlookup st.my_orders k with
      | some od => simp [hmem, hmem2, hnone, hrc, hmy]
      | none => simp [hmem, hmem2, hnone, hrc, hmy]

theorem process_settled_events_for (t timeout : ℚ)
    (f : String → Option (Option String)) (st : TrackerState)
    (hnd : dnodup st.recently_closed_orders) (oid : String) :
    events_for oid (process_settled_orders t timeout f st).2 =
      match dlookup st.recently_closed_orders oid with
      | some e =>
        if timeout ≤ t - e.disappeared_at then finalize_closed_order oid e (f oid) else []
      | none => [] := by
  rw [(process_settled_spec t timeout f st hnd).2.2,
    events_for_settle f st.recently_closed_orders _
      (hnd.sublist (dkeys_filter_sublist _ _)) oid]
  cases hrc : dlookup st.recently_closed_orders oid with
  | some e =>
    by_cases hp : timeout ≤ t - e.disappeared_at
    · have hmem : oid ∈ dkeys (st.recently_closed_orders.filter
          (fun kv => timeout ≤ t - kv.2.disappeared_at)) := by
        rw [mem_dkeys_filter _ _ hnd oid]
        exact ⟨e, hrc, by simpa using hp⟩
      simp [hmem, hrc, hp]
    · have hmem : ¬ oid ∈ dkeys (st.recently_closed_orders.filter
          (fun kv => timeout ≤ t - kv.2.disappeared_at)) := by
        rw [mem_dkeys_filter _ _ hnd oid]
        rintro ⟨v, hv, hpv⟩
        rw [hrc] at hv
        cases hv
        exact hp (by simpa using hpv)
      simp [hmem, hp]
  | none =>
    have hmem : ¬ oid ∈ dkeys (st.recently_closed_orders.filter
        (fun kv => timeout ≤ t - kv.2.disappeared_at)) := by
      rw [mem_dkeys_filter _ _ hnd oid]
      rintro ⟨v, hv, _⟩
      rw [hrc] at hv
      cases hv
    simp [hmem]

theorem fetch_events_for (t timeout : ℚ) (f : String → Option (Option String))
    (orders : List VenueOrder) (st : TrackerState)
    (hnd : dnodup st.recently_closed_orders) (oid : String) :
    events_for oid (fetch_open_orders t timeout (some orders) f st).2 =
      if oid ∈ orders.map VenueOrder.id then []
      else
        match dlookup st.recently_closed_orders oid, dlookup st.my_orders oid with
        | some e, _ =>
          if timeout ≤ t - e.disappeared_at then finalize_closed_order oid e (f oid) else []
        | none, some od =>
          if timeout ≤ t - t then
            finalize_closed_order oid { order := od, disappeared_at := t } (f oid)
          else []
        | none, none => [] := by
  rw [fetch_open_orders_some_eq]
  have hnd2 : dnodup (handle_disappeared_orders t (orders.map (fun o => o.id))
      (orders.foldl (process_order t) st)).recently_closed_orders :=
    rc_nodup_disappear t _ _ (rc_nodup_process_orders t orders st hnd)
  rw [process_settled_events_for t timeout f _ hnd2 oid,
    handle_disappeared_rc_lookup, processOrders_rc_lookup, processOrders_my_lookup]
  by_cases hmem : oid ∈ orders.map VenueOrder.id
  · have hmem2 : oid ∈ orders.map (fun o => o.id) := by simpa using hmem
    have hsome : (last_occurrence orders oid).isSome :=
      (last_occurrence_isSome_iff orders oid).mpr hmem
    cases hl : last_occurrence orders oid with
    | some o => simp [hmem, hmem2, hl]
    | none => rw [hl] at hsome; simp at hsome
  · have hmem2 : ¬ oid ∈ orders.map (fun o => o.id) := by simpa using hmem
    have hnone : last_occurrence orders oid = none := by
      cases hl : last_occurrence orders oid with
      | some o =>
        exact absurd ((last_occurrence_isSome_iff orders oid).mp (by simp [hl])) hmem
      | none => rfl
    cases hrc : dlookup st.recently_closed_orders oid with
    | some e => simp [hmem, hmem2, hnone, hrc]
    | none =>
      cases hmy : dlookup st.my_orders oid with
      | some od => simp [hmem, hmem2, hnone, hrc, hmy]
      | none => simp [hmem, hmem2, hnone, hrc, hmy]

/-- C6: running the reconciliation step a second time at the same instant
with the same open-orders response leaves both the open-order map and the
disappeared-order map exactly as after the first run (pointwise on every
order id, which is Python dict equality). -/
theorem fetch_open_orders_idempotent (t timeout : ℚ)
    (f f2 : String → Option (Option String)) (orders : List VenueOrder)
    (st : TrackerState) (hnd : dnodup st.recently_closed_orders) :
    ∀ k,
      dlookup (fetch_open_orders t timeout (some orders) f2
          ((fetch_open_orders t timeout (some orders) f st).1)).1.my_orders k =
        dlookup ((fetch_open_orders t timeout (some orders) f st).1).my_orders k
      ∧ dlookup (fetch_open_orders t timeout (some orders) f2
          ((fetch_open_orders t timeout (some orders) f st).1)).1.recently_closed_orders k =
        dlookup ((fetch_open_orders t timeout (some orders) f st).1).recently_closed_orders k := by
  intro k
  have hnd1 : dnodup ((fetch_open_orders t timeout (some orders) f st).1).recently_closed_orders :=
    fetch_rc_nodup t timeout (some orders) f st hnd
  constructor
  · rw [fetch_my_lookup t timeout f2 orders _ k, fetch_my_lookup t timeout f orders st k]
    cases hl : last_occurrence orders k with
    | some o =>
      have hca : created_at_for t ((fetch_open_orders t timeout (some orders) f st).1) k =
          created_at_for t st k := by
        unfold created_at_for
        rw [fetch_my_lookup t timeout f orders st k, hl]
        simp [mk_polled_order, created_at_for]
      rw [hca]
    | none => rfl
  · rw [fetch_rc_lookup t timeout f2 orders _ hnd1 k,
      fetch_rc_lookup t timeout f orders st hnd k]
    by_cases hmem : k ∈ orders.map VenueOrder.id
    · simp [hmem]
    · have hmyn : dlookup ((fetch_open_orders t timeout (some orders) f st).1).my_orders k =
          none := by
        rw [fetch_my_lookup t timeout f orders st k]
        have hnone : last_occurrence orders k = none := by
          cases hl : last_occurrence orders k with
          | some o =>
            exact absurd ((last_occurrence_isSome_iff orders k).mp (by simp [hl])) hmem
          | none => rfl
        simp [hnone]
      rw [if_neg hmem, if_neg hmem, hmyn]
      cases hrc : dlookup st.recently_closed_orders k with
      | some e =>
        by_cases hp : timeout ≤ t - e.disappeared_at
        · simp [hp]
        · simp [hp]
      | none =>
        cases hmy : dlookup st.my_orders k with
        | some od =>
          by_cases hp : timeout ≤ 0
          · simp [sub_self, hp]
          · simp [sub_self, hp]
        | none => simp

/-- Witness for C6: re-running the poll at time 5 with the same one-order
response leaves the tracked entry for id `"B"` unchanged. -/
theorem fetch_open_orders_idempotent_witness :
    dlookup (fetch_open_orders 5 60 (some sample_response) (fun _ => none)
        ((fetch_open_orders 5 60 (some sample_response) (fun _ => none)
          sample_state).1)).1.my_orders "B" =
      dlookup ((fetch_open_orders 5 60 (some sample_response) (fun _ => none)
        sample_state).1).my_orders "B" :=
  (fetch_open_orders_idempotent 5 60 (fun _ => none) (fun _ => none)
    sample_response sample_state (by decide) "B").1

/-- C10: for an id present both in `my_orders` before the poll and in the
response, `fetch_open_orders` keeps its original `created_at` and updates
only the polled fields; an id that reappears after having moved to
`recently_closed_orders` (so absent from `my_orders`) is re-inserted with
`created_at` equal to the current poll time instead of its original
creation timestamp. -/
theorem fetch_open_orders_created_at (t timeout : ℚ)
    (f : String → Option (Option String)) (orders : List VenueOrder)
    (st : TrackerState) (k : String) (o : VenueOrder)
    (ho : last_occurrence orders k = some o) :
    (∀ ex, dlookup st.my_orders k = some ex →
      dlookup (fetch_open_orders t timeout (some orders) f st).1.my_orders k =
        some (mk_polled_order ex.created_at o))
    ∧ (∀ e, dlookup st.my_orders k = none →
        dlookup st.recently_closed_orders k = some e →
        dlookup (fetch_open_orders t timeout (some orders) f st).1.my_orders k =
          some (mk_polled_order t o)) := by
  constructor
  · intro ex hex
    rw [fetch_my_lookup t timeout f orders st k, ho]
    unfold created_at_for
    rw [hex]
  · intro e hmyn _
    rw [fetch_my_lookup t timeout f orders st k, ho]
    unfold created_at_for
    rw [hmyn]

/-- Witness for C10: a tracked order created at time 0 polled again at time
99 keeps `created_at = 0` while its price field is refreshed from the
response. -/
theorem fetch_open_orders_created_at_witness :
    dlookup (fetch_open_orders 99 60 (some
        [{ id := "A", symbol := "ETH/USDT", price := some "7", amount := some "2",
           filled := some "1", side := "buy", status := some "open", info := "" }])
      (fun _ => none) sample_state).1.my_orders "A" =
      some (mk_polled_order 0
        { id := "A", symbol := "ETH/USDT", price := some "7", amount := some "2",
          filled := some "1", side := "buy", status := some "open", info := "" }) := by
  have h := (fetch_open_orders_created_at 99 60 (fun _ => none)
      [{ id := "A", symbol := "ETH/USDT", price := some "7", amount := some "2",
         filled := some "1", side := "buy", status := some "open", info := "" }]
      sample_state "A"
      { id := "A", symbol := "ETH/USDT", price := some "7", amount := some "2",
        filled := some "1", side := "buy", status := some "open", info := "" }
      (by decide)).1 sample_order (by decide)
  simpa [sample_order] using h

theorem closed_updates_append (oid : String) (a b : List DbEvent) :
    closed_updates_for oid (a ++ b) =
      closed_updates_for oid a ++ closed_updates_for oid b :=
  List.filter_append a b

theorem trades_append (oid : String) (a b : List DbEvent) :
    trades_for oid (a ++ b) = trades_for oid a ++ trades_for oid b :=
  List.filter_append a b

theorem filter_subpred {A : Type} (p q : A → Bool) (l : List A)
    (h : ∀ a, p a = true → q a = true) :
    (l.filter q).filter p = l.filter p := by
  induction l with
  | nil => rfl
  | cons a rest ih =>
    by_cases hq : q a
    · by_cases hp : p a <;> simp [List.filter_cons, hq, hp, ih]
    · have hp : p a = false := by
        cases hpa : p a
        · rfl
        · exact absurd (h a hpa) (by simpa using hq)
      simp [List.filter_cons, hq, hp, ih]

theorem closed_updates_events_for (oid : String) (evs : List DbEvent) :
    closed_updates_for oid evs = closed_updates_for oid (events_for oid evs) := by
  unfold closed_updates_for events_for
  refine (filter_subpred _ _ evs ?_).symm
  intro a ha
  rw [decide_eq_true_eq] at ha
  subst ha
  simp [event_order_id]

theorem trades_events_for (oid : String) (evs : List DbEvent) :
    trades_for oid evs = trades_for oid (events_for oid evs) := by
  unfold trades_for events_for
  refine (filter_subpred _ _ evs ?_).symm
  intro a ha
  cases a with
  | statusUpdate k s => simp at ha
  | recordTrade k pair sd price qty =>
    rw [decide_eq_true_eq] at ha
    simp [event_order_id, ha]
  | recordOrder k pair sd price qty => simp at ha

theorem closed_updates_finalize (oid : String) (od : OrderDataWithDisappeared)
    (r : Option (Option String)) :
    closed_updates_for oid (finalize_closed_order oid od r) =
      [DbEvent.statusUpdate oid "CLOSED"] := by
  simp only [finalize_closed_order, closed_updates_for]
  split <;> simp [List.filter]

theorem trades_finalize_length (oid : String) (od : OrderDataWithDisappeared)
    (r : Option (Option String)) :
    (trades_for oid (finalize_closed_order oid od r)).length ≤ 1 := by
  simp only [finalize_closed_order, trades_for]
  split <;> simp [List.filter]

theorem last_occurrence_eq_none (orders : List VenueOrder) (k : String)
    (h : ¬ k ∈ orders.map VenueOrder.id) : last_occurrence orders k = none := by
  cases hl : last_occurrence orders k with
  | some o =>
    exact absurd ((last_occurrence_isSome_iff orders k).mp (by simp [hl])) h
  | none => rfl

theorem run_polls_cons (timeout : ℚ) (st : TrackerState) (p : Poll)
    (rest : List Poll) :
    run_polls timeout st (p :: rest) =
      ((run_polls timeout (fetch_open_orders p.t timeout p.response p.fetch_final st).1 rest).1,
        (fetch_open_orders p.t timeout p.response p.fetch_final st).2 ++
          (run_polls timeout (fetch_open_orders p.t timeout p.response p.fetch_final st).1 rest).2) :=
  rfl

theorem fetch_step_bounds (t timeout : ℚ) (resp : Option (List VenueOrder))
    (f : String → Option (Option String)) (st : TrackerState)
    (hnd : dnodup st.recently_closed_orders) (oid : String) :
    (closed_updates_for oid (fetch_open_orders t timeout resp f st).2).length ≤ 1
    ∧ (trades_for oid (fetch_open_orders t timeout resp f st).2).length ≤
        (closed_updates_for oid (fetch_open_orders t timeout resp f st).2).length
    ∧ (1 ≤ (closed_updates_for oid (fetch_open_orders t timeout resp f st).2).length →
        dlookup (fetch_open_orders t timeout resp f st).1.my_orders oid = none
        ∧ dlookup (fetch_open_orders t timeout resp f st).1.recently_closed_orders oid = none) := by
  cases resp with
  | none =>
    refine ⟨by simp [fetch_open_orders, closed_updates_for], ?_, ?_⟩
    · simp [fetch_open_orders, closed_updates_for, trades_for]
    · intro h
      simp [fetch_open_orders, closed_updates_for] at h
  | some orders =>
    have hev := fetch_events_for t timeout f orders st hnd oid
    by_cases hmem : oid ∈ orders.map VenueOrder.id
    · have hE : events_for oid (fetch_open_orders t timeout (some orders) f st).2 = [] := by
        rw [hev]
        simp [hmem]
      rw [closed_updates_events_for, trades_events_for, hE]
      refine ⟨by simp [closed_updates_for], by simp [closed_updates_for, trades_for], ?_⟩
      intro h
      simp [closed_updates_for] at h
    · have hmyL := fetch_my_lookup t timeout f orders st oid
      rw [last_occurrence_eq_none orders oid hmem] at hmyL
      have hrcL := fetch_rc_lookup t timeout f orders st hnd oid
      rw [if_neg hmem] at hrcL
      cases hrc : dlookup st.recently_closed_orders oid with
      | some e =>
        by_cases hp : timeout ≤ t - e.disappeared_at
        · have hE : events_for oid (fetch_open_orders t timeout (some orders) f st).2 =
              finalize_closed_order oid e (f oid) := by
            rw [hev]
            simp [hmem, hrc, hp]
          rw [closed_updates_events_for, trades_events_for, hE]
          refine ⟨by simp [closed_updates_finalize], ?_, ?_⟩
          · rw [closed_updates_finalize]
            exact le_trans (trades_finalize_length oid e (f oid)) (by simp)
          · intro _
            refine ⟨hmyL, ?_⟩
            rw [hrcL, hrc]
            simp [hp]
        · have hE : events_for oid (fetch_open_orders t timeout (some orders) f st).2 = [] := by
            rw [hev]
            simp [hmem, hrc, hp]
          rw [closed_updates_events_for, trades_events_for, hE]
          refine ⟨by simp [closed_updates_for], by simp [closed_updates_for, trades_for], ?_⟩
          intro h
          simp [closed_updates_for] at h
      | none =>
        cases hmy : dlookup st.my_orders oid with
        | some od =>
          by_cases hp : timeout ≤ (0 : ℚ)
          · have hE : events_for oid (fetch_open_orders t timeout (some orders) f st).2 =
                finalize_closed_order oid { order := od, disappeared_at := t } (f oid) := by
              rw [hev]
              simp [hmem, hrc, hmy, sub_self, hp]
            rw [closed_updates_events_for, trades_events_for, hE]
            refine ⟨by simp [closed_updates_finalize], ?_, ?_⟩
            · rw [closed_updates_finalize]
              exact le_trans (trades_finalize_length oid _ (f oid)) (by simp)
            · intro _
              refine ⟨hmyL, ?_⟩
              rw [hrcL, hrc, hmy]
              simp [sub_self, hp]
          · have hE : events_for oid (fetch_open_orders t timeout (some orders) f st).2 = [] := by
              rw [hev]
              simp [hmem, hrc, hmy, sub_self, hp]
            rw [closed_updates_events_for, trades_events_for, hE]
            refine ⟨by simp [closed_updates_for], by simp [closed_updates_for, trades_for], ?_⟩
            intro h
            simp [closed_updates_for] at h
        | none =>
          have hE : events_for oid (fetch_open_orders t timeout (some orders) f st).2 = [] := by
            rw [hev]
            simp [hmem, hrc, hmy]
          rw [closed_updates_events_for, trades_events_for, hE]
          refine ⟨by simp [closed_updates_for], by simp [closed_updates_for, trades_for], ?_⟩
          intro h
          simp [closed_updates_for] at h

theorem run_polls_outside (timeout : ℚ) (oid : String) :
    ∀ (polls : List Poll) (st : TrackerState), dnodup st.recently_closed_orders →
      dlookup st.my_orders oid = none →
      dlookup st.recently_closed_orders oid = none →
      (∀ p, p ∈ polls → ¬ oid ∈ poll_response_ids p) →
      events_for oid (run_polls timeout st polls).2 = []
      ∧ dlookup (run_polls timeout st polls).1.my_orders oid = none
      ∧ dlookup (run_polls timeout st polls).1.recently_closed_orders oid = none := by
  intro polls
  induction polls with
  | nil =>
    intro st _ hmy hrc _
    exact ⟨by simp [run_polls, events_for], hmy, hrc⟩
  | cons p rest ih =>
    intro st hnd hmy hrc hresp
    rw [run_polls_cons]
    have hnd1 : dnodup (fetch_open_orders p.t timeout p.response p.fetch_final st).1.recently_closed_orders :=
      fetch_rc_nodup p.t timeout p.response p.fetch_final st hnd
    have hstep : events_for oid (fetch_open_orders p.t timeout p.response p.fetch_final st).2 = []
        ∧ dlookup (fetch_open_orders p.t timeout p.response p.fetch_final st).1.my_orders oid = none
        ∧ dlookup (fetch_open_orders p.t timeout p.response p.fetch_final st).1.recently_closed_orders oid = none := by
      cases hr : p.response with
      | none =>
        exact ⟨by simp [fetch_open_orders, events_for], hmy, hrc⟩
      | some orders =>
        have hoid : ¬ oid ∈ orders.map VenueOrder.id := by
          have := hresp p (List.mem_cons_self p rest)
          rw [poll_response_ids, hr] at this
          exact this
        refine ⟨?_, ?_, ?_⟩
        · rw [fetch_events_for p.t timeout p.fetch_final orders st hnd oid,
            if_neg hoid, hrc, hmy]
        · rw [fetch_my_lookup p.t timeout p.fetch_final orders st oid,
            last_occurrence_eq_none orders oid hoid]
        · rw [fetch_rc_lookup p.t timeout p.fetch_final orders st hnd oid,
            if_neg hoid, hrc, hmy]
    obtain ⟨hrest1, hrest2, hrest3⟩ := ih _ hnd1 hstep.2.1 hstep.2.2
      (fun p2 hp2 => hresp p2 (List.mem_cons_of_mem p hp2))
    refine ⟨?_, hrest2, hrest3⟩
    rw [events_for_append, hstep.1, hrest1]
    rfl

theorem run_polls_closed_bound (timeout : ℚ) (oid : String) :
    ∀ (polls : List Poll) (st : TrackerState), dnodup st.recently_closed_orders →
      (∀ pre p post, polls = pre ++ p :: post →
        1 ≤ (closed_updates_for oid (run_polls timeout st pre).2).length →
        ¬ oid ∈ poll_response_ids p) →
      (closed_updates_for oid (run_polls timeout st polls).2).length ≤ 1
      ∧ (trades_for oid (run_polls timeout st polls).2).length ≤
          (closed_updates_for oid (run_polls timeout st polls).2).length := by
  intro polls
  induction polls with
  | nil =>
    intro st _ _
    simp [run_polls, closed_updates_for, trades_for]
  | cons p rest ih =>
    intro st hnd hres
    rw [run_polls_cons]
    obtain ⟨hb1, hb2, hb3⟩ := fetch_step_bounds p.t timeout p.response p.fetch_final st hnd oid
    have hnd1 : dnodup (fetch_open_orders p.t timeout p.response p.fetch_final st).1.recently_closed_orders :=
      fetch_rc_nodup p.t timeout p.response p.fetch_final st hnd
    by_cases hz : 1 ≤ (closed_updates_for oid
        (fetch_open_orders p.t timeout p.response p.fetch_final st).2).length
    · obtain ⟨ho1, ho2⟩ := hb3 hz
      have hrest : ∀ p2, p2 ∈ rest → ¬ oid ∈ poll_response_ids p2 := by
        intro p2 hp2
        obtain ⟨pre2, post2, hsplit⟩ := List.append_of_mem hp2
        refine hres (p :: pre2) p2 post2 (by rw [hsplit, List.cons_append]) ?_
        rw [run_polls_cons]
        simp only [closed_updates_append, List.length_append]
        omega
      obtain ⟨hout1, hout2, hout3⟩ := run_polls_outside timeout oid rest _ hnd1 ho1 ho2 hrest
      have hcr : closed_updates_for oid
          (run_polls timeout (fetch_open_orders p.t timeout p.response p.fetch_final st).1 rest).2 = [] := by
        rw [closed_updates_events_for, hout1]
        rfl
      have htr : trades_for oid
          (run_polls timeout (fetch_open_orders p.t timeout p.response p.fetch_final st).1 rest).2 = [] := by
        rw [trades_events_for, hout1]
        rfl
      constructor
      · simp only [closed_updates_append, List.length_append, hcr, List.length_nil]
        omega
      · simp only [closed_updates_append, trades_append, List.length_append, hcr, htr,
          List.length_nil]
        omega
    · have hz0 : (closed_updates_for oid
          (fetch_open_orders p.t timeout p.response p.fetch_final st).2).length = 0 := by
        omega
      have ht0 : (trades_for oid
          (fetch_open_orders p.t timeout p.response p.fetch_final st).2).length = 0 := by
        omega
      have hres2 : ∀ pre2 p2 post2, rest = pre2 ++ p2 :: post2 →
          1 ≤ (closed_updates_for oid (run_polls timeout
            (fetch_open_orders p.t timeout p.response p.fetch_final st).1 pre2).2).length →
          ¬ oid ∈ poll_response_ids p2 := by
        intro pre2 p2 post2 hsplit hlen
        refine hres (p :: pre2) p2 post2 (by rw [hsplit, List.cons_append]) ?_
        rw [run_polls_cons]
        simp only [closed_updates_append, List.length_append]
        omega
      obtain ⟨hc, ht⟩ := ih _ hnd1 hres2
      constructor
      · simp only [closed_updates_append, List.length_append]
        omega
      · simp only [closed_updates_append, trades_append, List.length_append]
        omega

/-- C1 (amended): across any sequence of reconciliation polls in which an
order id never reappears in an open-orders response after a poll that
finalized it, at most one CLOSED status write and at most one trade record
are produced for that id (and a trade is only ever recorded together with
a CLOSED write); at every finalization a trade record is emitted exactly
when the definitive filled quantity is positive, and the persistent order
status is always set to CLOSED. -/
theorem finalize_exactly_once (timeout : ℚ) (st0 : TrackerState) (oid : String)
    (polls : List Poll) (hnd : dnodup st0.recently_closed_orders)
    (hres : ∀ pre p post, polls = pre ++ p :: post →
      1 ≤ (closed_updates_for oid (run_polls timeout st0 pre).2).length →
      ¬ oid ∈ poll_response_ids p) :
    ((closed_updates_for oid (run_polls timeout st0 polls).2).length ≤ 1
      ∧ (trades_for oid (run_polls timeout st0 polls).2).length ≤
          (closed_updates_for oid (run_polls timeout st0 polls).2).length)
    ∧ (∀ (oid2 : String) (od : OrderDataWithDisappeared) (r : Option (Option String)),
        DbEvent.statusUpdate oid2 "CLOSED" ∈ finalize_closed_order oid2 od r
        ∧ ((∃ pair sd price qty,
            DbEvent.recordTrade oid2 pair sd price qty ∈ finalize_closed_order oid2 od r) ↔
          0 < definitive_filled od r)) := by
  refine ⟨run_polls_closed_bound timeout oid polls st0 hnd hres, ?_⟩
  intro oid2 od r
  constructor
  · simp [finalize_closed_order]
  · constructor
    · rintro ⟨pair, sd, price, qty, hmem⟩
      simp only [finalize_closed_order] at hmem
      rcases List.mem_cons.mp hmem with h | h
      · cases h
      · by_cases hp : 0 < definitive_filled od r
        · exact hp
        · rw [if_neg hp] at h
          cases h
    · intro hp
      refine ⟨od.order.symbol, od.order.side,
        safe_str_to_float (some od.order.price) 0, definitive_filled od r, ?_⟩
      simp [finalize_closed_order, hp]

/-- Witness for C1: the amended theorem applied to the empty poll sequence
from the empty tracker state. -/
theorem finalize_exactly_once_witness :
    (closed_updates_for "A" (run_polls 60
      { my_orders := [], recently_closed_orders := [] } []).2).length ≤ 1 :=
  ((finalize_exactly_once 60 { my_orders := [], recently_closed_orders := [] } "A" []
    (by decide) (fun pre p post h _ => absurd h (by simp))).1).1

/-- Counterexample to C1 as stated: when the venue reports an already
finalized id as open again, the tracker finalizes it a second time —
two trade records and two CLOSED status writes are produced for one id
across a single poll sequence. -/
theorem finalize_twice_counterexample :
    (trades_for "A" (run_polls 60
        { my_orders := [], recently_closed_orders := [] } resurrect_polls).2).length = 2
    ∧ (closed_updates_for "A" (run_polls 60
        { my_orders := [], recently_closed_orders := [] } resurrect_polls).2).length = 2 := by
  decide

/-- Counterexample to C2 as stated: a resolved mid-price of 160 against a
last accepted price of 100 differs by 60 percent and is higher, yet the
code keeps 160 because it only substitutes above a 100 percent rise. -/
theorem sanity_check_mid_price_counterexample :
    1/2 < |(160 : ℚ) - 100| / 100 ∧ (100 : ℚ) < 160
    ∧ sanity_check_mid_price (some 100) 160 = 160 ∧ (160 : ℚ) ≠ 100 := by
  decide

/-- C2 (amended): with a positive stored last price, the grid mid-price
sanity check returns the last price exactly when the resolved mid-price
exceeds twice the last price, and the resolved mid-price otherwise (moves
between 50 and 100 percent upward, and all downward moves, only log). -/
theorem sanity_check_mid_price_spec (lp mid : ℚ) (h : 0 < lp) :
    sanity_check_mid_price (some lp) mid = if lp * 2 < mid then lp else mid := by
  have hcond : lp ≠ 0 ∧ 0 < lp := ⟨ne_of_gt h, h⟩
  by_cases h2 : lp * 2 < mid
  · have hr : 1/2 < |mid - lp| / lp := by
      have habs : |mid - lp| = mid - lp := abs_of_pos (by linarith)
      rw [habs, lt_div_iff₀ h]
      linarith
    simp [sanity_check_mid_price, hcond, hr, h2]
    intro hc
    exfalso
    rw [one_div] at hr
    exact absurd hr (not_lt.mpr hc)
  · by_cases hr : 1/2 < |mid - lp| / lp
    · simp [sanity_check_mid_price, hcond, hr, h2]
    · simp [sanity_check_mid_price, hcond, hr, h2]

/-- Witness for C2 (amended): at last price 100 and resolved mid 160 the
check keeps 160; at resolved mid 250 it substitutes 100. -/
theorem sanity_check_mid_price_spec_witness :
    sanity_check_mid_price (some 100) 250 = 100 := by
  rw [sanity_check_mid_price_spec 100 250 (by norm_num)]
  norm_num

/-- C8: with a positive reference price and positive maximum deviation,
the filtered book retains exactly the levels whose price lies in
`[reference × (1 − dev), reference × (1 + dev)]` inclusive, except that a
level at one of the system's own resting order prices on the same side is
excluded regardless of the band. -/
theorem fetch_and_update_orderbook_spec (bids asks : List (ℚ × ℚ))
    (ref dev : ℚ) (orders : Dict OrderData)
    (href : 0 < ref) (hdev : 0 < dev) :
    (∀ p s, (p, s) ∈ (fetch_and_update_orderbook bids asks (some ref) dev orders).1 ↔
      ((p, s) ∈ bids ∧ ¬ p ∈ (my_order_prices orders).1
        ∧ ref * (1 - dev) ≤ p ∧ p ≤ ref * (1 + dev)))
    ∧ (∀ p s, (p, s) ∈ (fetch_and_update_orderbook bids asks (some ref) dev orders).2 ↔
      ((p, s) ∈ asks ∧ ¬ p ∈ (my_order_prices orders).2
        ∧ ref * (1 - dev) ≤ p ∧ p ≤ ref * (1 + dev))) := by
  have hcond : ref ≠ 0 ∧ 0 < ref ∧ 0 < dev := ⟨ne_of_gt href, href, hdev⟩
  constructor
  · intro p s
    simp [fetch_and_update_orderbook, hcond, filter_levels, List.mem_filter, and_assoc]
  · intro p s
    simp [fetch_and_update_orderbook, hcond, filter_levels, List.mem_filter, and_assoc]

/-- Witness for C8: with reference 100 and deviation 1/10, the in-band
level at the system's own bid price 90 is excluded from the filtered
bids. -/
theorem fetch_and_update_orderbook_spec_witness :
    ¬ ((90 : ℚ), (1 : ℚ)) ∈ (fetch_and_update_orderbook
      [((90 : ℚ), (1 : ℚ)), ((200 : ℚ), (3 : ℚ))] [] (some 100) (1/10)
      [("A", own_bid_order)]).1 := by
  intro h
  have h2 := ((fetch_and_update_orderbook_spec
      [((90 : ℚ), (1 : ℚ)), ((200 : ℚ), (3 : ℚ))] [] 100 (1/10)
      [("A", own_bid_order)] (by norm_num) (by norm_num)).1 90 1).mp h
  exact h2.2.1 (by decide)

/-- C9: placement is suppressed (state unchanged, nothing recorded)
exactly by a tracked same-side order with a parseable nonzero price within
0.1 percent of the requested price; tracked orders with an empty, `'None'`,
`'0'` or unparsable price field never trigger the suppression. -/
theorem maybe_place_order_duplicate_spec (side : String) (price : ℚ)
    (h : 0 < price) :
    (∀ orders : Dict OrderData,
      (has_duplicate orders side price = true ↔
        ∃ o, o ∈ dvalues orders ∧ o.side = side ∧
          ∃ q, parseDecimal o.price = some q ∧ q ≠ 0 ∧ |q - price| / price < 1/1000))
    ∧ (∀ (symbol : String) (t size : ℚ) (price_str size_str : String)
        (att : PlaceAttempt) (st : TrackerState),
        has_duplicate st.my_orders side price = true →
        maybe_place_order symbol t side price size price_str size_str att st = (st, [])) := by
  constructor
  · intro orders
    unfold has_duplicate
    rw [List.any_eq_true]
    constructor
    · rintro ⟨o, ho, hdup⟩
      unfold is_duplicate_of at hdup
      simp only [Bool.and_eq_true, decide_eq_true_eq] at hdup
      obtain ⟨⟨hside, _⟩, hmatch⟩ := hdup
      cases hq : parseDecimal o.price with
      | some q =>
        rw [hq] at hmatch
        rw [decide_eq_true_eq] at hmatch
        refine ⟨o, ho, hside, q, hq, ?_, hmatch⟩
        intro hq0
        subst hq0
        rw [zero_sub, abs_neg, abs_of_pos h, div_self (ne_of_gt h)] at hmatch
        norm_num at hmatch
      | none =>
        rw [hq] at hmatch
        simp at hmatch
    · rintro ⟨o, ho, hside, q, hq, hq0, hclose⟩
      refine ⟨o, ho, ?_⟩
      unfold is_duplicate_of
      simp only [Bool.and_eq_true, decide_eq_true_eq]
      refine ⟨⟨hside, ⟨?_, ?_⟩, ?_⟩, ?_⟩
      · intro he
        rw [he, parseDecimal_empty] at hq
        cases hq
      · intro he
        rw [he, parseDecimal_None] at hq
        cases hq
      · intro he
        rw [he, parseDecimal_zero] at hq
        cases hq
        exact hq0 rfl
      · rw [hq, decide_eq_true_eq]
        exact hclose
  · intro symbol t size price_str size_str att st hdup
    unfold maybe_place_order
    rw [if_pos hdup]

/-- Witness for C9: a tracked buy at price 100 suppresses a new buy
placement at the same price, leaving state and database untouched. -/
theorem maybe_place_order_duplicate_spec_witness :
    maybe_place_order "ETH/USDT" 5 "buy" 100 1 "100" "1"
      { funds_ok := true, adjusted_size := 1, create_result := none, verified := false }
      { my_orders := [("D", dup_order)], recently_closed_orders := [] } =
    ({ my_orders := [("D", dup_order)], recently_closed_orders := [] }, []) :=
  (maybe_place_order_duplicate_spec "buy" 100 (by norm_num)).2 "ETH/USDT" 5 1 "100" "1"
    { funds_ok := true, adjusted_size := 1, create_result := none, verified := false }
    { my_orders := [("D", dup_order)], recently_closed_orders := [] } (by decide)

/-- Counterexample to C4 as stated: a successful cancel of an id that sits
in the disappeared-order map writes CANCELLED but leaves the id in
`recently_closed_orders` — the code only pops `my_orders`. -/
theorem cancel_order_counterexample :
    dlookup (cancel_order "X" true
      { my_orders := [],
        recently_closed_orders := [("X", sample_disappeared)] }).1.recently_closed_orders "X" =
      some sample_disappeared
    ∧ (cancel_order "X" true
        { my_orders := [],
          recently_closed_orders := [("X", sample_disappeared)] }).2 =
      [DbEvent.statusUpdate "X" "CANCELLED"] := by
  decide

/-- C4 (amended): on a successful venue cancel, `cancel_order` removes the
id from the open-order map only, leaves the disappeared-order map — and
every other open-order entry — unchanged, and marks the id CANCELLED in
the persistent store; when the venue call fails after retries, state and
store are untouched. -/
theorem cancel_order_spec (oid : String) (st : TrackerState) :
    dlookup (cancel_order oid true st).1.my_orders oid = none
    ∧ (∀ k, k ≠ oid →
        dlookup (cancel_order oid true st).1.my_orders k = dlookup st.my_orders k)
    ∧ (cancel_order oid true st).1.recently_closed_orders = st.recently_closed_orders
    ∧ (cancel_order oid true st).2 = [DbEvent.statusUpdate oid "CANCELLED"]
    ∧ cancel_order oid false st = (st, []) := by
  refine ⟨?_, ?_, rfl, rfl, rfl⟩
  · exact (dlookup_conderase st.my_orders oid oid).trans (if_pos rfl)
  · intro k hk
    exact (dlookup_conderase st.my_orders oid k).trans
      (if_neg (fun hh => hk hh.symm))

/-- Witness for C4 (amended): cancelling `"X"` leaves the tracked order
`"A"` untouched. -/
theorem cancel_order_spec_witness :
    dlookup (cancel_order "X" true sample_state).1.my_orders "A" =
      dlookup sample_state.my_orders "A" :=
  (cancel_order_spec "X" sample_state).2.1 "A" (by decide)

theorem orders_disjoint_iff (st : TrackerState) :
    orders_disjoint st = true ↔
      ∀ k, (dlookup st.my_orders k).isSome →
        dlookup st.recently_closed_orders k = none := by
  unfold orders_disjoint
  rw [List.all_eq_true]
  constructor
  · intro hall k hk
    have h2 := hall k ((mem_dkeys_iff _ _).mpr hk)
    rw [Bool.not_eq_true'] at h2
    unfold dcontains at h2
    exact Option.not_isSome_iff_eq_none.mp (by rw [h2]; exact Bool.false_ne_true)
  · intro h k hkmem
    have hs := (mem_dkeys_iff _ _).mp hkmem
    have h2 := h k hs
    simp [dcontains, h2]

/-- C5 (amended): the at-most-one-map invariant holds after every
reconciliation poll (unconditionally re-established on a successful poll,
kept on a failed one) and after every cancellation; after a verified order
placement it holds provided the venue-assigned id of the new order is not
currently in the disappeared-order map. -/
theorem order_maps_disjoint (oid side symbol : String)
    (t timeout price size : ℚ) (price_str size_str : String)
    (resp : Option (List VenueOrder)) (f : String → Option (Option String))
    (ok : Bool) (att : PlaceAttempt) (st : TrackerState) :
    (dnodup st.recently_closed_orders → orders_disjoint st = true →
      orders_disjoint (fetch_open_orders t timeout resp f st).1 = true)
    ∧ (orders_disjoint st = true →
        orders_disjoint (cancel_order oid ok st).1 = true)
    ∧ (orders_disjoint st = true →
        (∀ placed, att.create_result = some placed →
          dlookup st.recently_closed_orders placed.id = none) →
        orders_disjoint
          (maybe_place_order symbol t side price size price_str size_str att st).1 = true) := by
  refine ⟨?_, ?_, ?_⟩
  · intro hnd hdisj
    cases resp with
    | none => exact hdisj
    | some orders =>
      rw [orders_disjoint_iff]
      intro k hk
      rw [fetch_my_lookup t timeout f orders st k] at hk
      cases hl : last_occurrence orders k with
      | none =>
        rw [hl] at hk
        simp at hk
      | some o =>
        have hmem : k ∈ orders.map VenueOrder.id :=
          (last_occurrence_isSome_iff orders k).mp (by simp [hl])
        rw [fetch_rc_lookup t timeout f orders st hnd k, if_pos hmem]
  · intro hdisj
    rw [orders_disjoint_iff] at hdisj ⊢
    cases ok with
    | false => exact hdisj
    | true =>
      intro k hk
      have hmy : dlookup (cancel_order oid true st).1.my_orders k =
          if oid = k then none else dlookup st.my_orders k :=
        dlookup_conderase st.my_orders oid k
      by_cases hko : oid = k
      · rw [hmy, if_pos hko] at hk
        simp at hk
      · rw [hmy, if_neg hko] at hk
        exact hdisj k hk
  · intro hdisj hfresh
    rw [orders_disjoint_iff] at hdisj ⊢
    unfold maybe_place_order
    by_cases hdup : has_duplicate st.my_orders side price
    · rw [if_pos hdup]
      exact hdisj
    · rw [if_neg hdup]
      by_cases hf : att.funds_ok
      · rw [if_neg (by simp [hf])]
        cases hcr : att.create_result with
        | none => exact hdisj
        | some placed =>
          dsimp only
          by_cases hid : placed.id = ""
          · rw [if_pos hid]
            exact hdisj
          · rw [if_neg hid]
            by_cases hrej : rejected_status placed.status
            · rw [if_pos hrej]
              exact hdisj
            · rw [if_neg hrej]
              by_cases hv : att.verified
              · rw [if_neg (by simp [hv])]
                intro k hk
                by_cases hkp : k = placed.id
                · subst hkp
                  exact hfresh placed hcr
                · rw [dlookup_dinsert_ne st.my_orders placed.id k _ hkp] at hk
                  exact hdisj k hk
              · rw [if_pos (by simp [hv])]
                exact hdisj
      · rw [if_pos (by simp [hf])]
        exact hdisj

/-- Counterexample to C5 as stated: from a state satisfying the invariant,
a verified placement whose venue-assigned id equals a disappeared order id
leaves that id in both maps at once. -/
theorem order_maps_disjoint_counterexample :
    orders_disjoint
      { my_orders := [], recently_closed_orders := [("X", sample_disappeared)] } = true
    ∧ orders_disjoint (maybe_place_order "ETH/USDT" 5 "buy" 100 1 "100" "1"
        colliding_attempt
        { my_orders := [], recently_closed_orders := [("X", sample_disappeared)] }).1 = false := by
  decide

/-- Witness for C5 (amended): a successful cancel keeps the two maps
disjoint on a concrete state. -/
theorem order_maps_disjoint_witness :
    orders_disjoint (cancel_order "X" true sample_state).1 = true :=
  (order_maps_disjoint "X" "buy" "ETH/USDT" 0 60 1 1 "1" "1" none (fun _ => none) true
    { funds_ok := true, adjusted_size := 1, create_result := none, verified := false }
    sample_state).2.1 (by decide)
